import Mathlib

/-!
Verification of the qudi-core data-storage utilities
(`src/qudi/util/datastorage.py`) against its natural-language
specification.  The Python source is shallowly embedded below: pure
helpers become Lean functions, the process-wide global-metadata registry
becomes an explicit heap of Python objects (so that shallow/deep copying
and aliasing through mutable values can be stated), and file writes
become an explicit file-system value threaded through the storage
operations.  Exceptions become an explicit error type.
-/

deriving instance DecidableEq for Except

/-! ## Python-level string helpers -/

/-- Python exception outcomes relevant to the embedded code.  Exception
message strings are not modelled.  `incompleteWrite` is modelled from the
spec: it stands for the `PartialWriteFailure` error the spec demands; the
source never produces it. -/
inductive PyError
  | keyError
  | typeError
  | valueError
  | osError
  | fileNotFoundError
  | incompleteWrite
deriving DecidableEq, Repr

/-- ASCII whitespace as matched by the regex class `[\s]` and stripped by
`str.strip()`.  (The Python versions additionally match rare Unicode
whitespace code points; the model is restricted to ASCII whitespace.) -/
def pyIsSpace (c : Char) : Bool :=
  c = ' ' || c = '\t' || c = '\n' || c = '\x0d' || c = '\x0b' || c = '\x0c'

/-- `str.strip()`: drop leading and trailing whitespace. -/
def pyStrip (s : String) : String :=
  String.mk (((s.data.dropWhile pyIsSpace).reverse.dropWhile pyIsSpace).reverse)

/-- Worker for `re.sub` with pattern `[\s]+` and replacement `_`: the flag
records whether we are inside a whitespace run that has already emitted
its underscore. -/
def subWsAux : Bool → List Char → List Char
  | _, [] => []
  | inRun, c :: rest =>
    if pyIsSpace c then
      (if inRun then [] else ['_']) ++ subWsAux true rest
    else
      c :: subWsAux false rest

/-- `re.sub` with pattern `[\s]+` and underscore replacement: every maximal whitespace run becomes one
underscore. -/
def subWs (s : String) : String :=
  String.mk (subWsAux false s.data)

/-- Decimal digit character. -/
def digitChar (d : Nat) : Char := Char.ofNat (48 + d)

/-- Decimal digit characters of a natural number, most significant first
(first argument is fuel; `n + 1` fuel always suffices). -/
def digitsGo : Nat → Nat → List Char → List Char
  | 0, _, acc => acc
  | f + 1, n, acc =>
    if n < 10 then digitChar n :: acc
    else digitsGo f (n / 10) (digitChar (n % 10) :: acc)

/-- Decimal rendering of a natural number. -/
def natRepr (n : Nat) : String := String.mk (digitsGo (n + 1) n [])

/-- Python `format(n, d)` on an `int`: optional sign, then decimal
digits, no other decoration. -/
def pyIntD (n : Int) : String :=
  (if n < 0 then "-" else "") ++ natRepr n.natAbs

/-- Zero-pad to two digits, as the strftime fields `%m %d %H %M %S` do. -/
def pad2 (n : Nat) : String :=
  if n < 10 then "0" ++ natRepr n else natRepr n

/-- Timestamp value standing for a Python `datetime.datetime`. -/
structure Datetime where
  year : Nat
  month : Nat
  day : Nat
  hour : Nat
  minute : Nat
  second : Nat
deriving DecidableEq, Repr

/-- `timestamp.strftime` with format `%Y%m%d-%H%M-%S` (glibc `%Y` renders the year
without padding). -/
def strftimeFile (t : Datetime) : String :=
  natRepr t.year ++ pad2 t.month ++ pad2 t.day ++ "-" ++ pad2 t.hour ++
    pad2 t.minute ++ "-" ++ pad2 t.second

/-- `timestamp.strftime` with format `%d.%m.%Y at %Hh%Mm%Ss`, the localized header
date format. -/
def strftimeLoc (t : Datetime) : String :=
  pad2 t.day ++ "." ++ pad2 t.month ++ "." ++ natRepr t.year ++ " at " ++
    pad2 t.hour ++ "h" ++ pad2 t.minute ++ "m" ++ pad2 t.second ++ "s"

/-- Embedding of `get_timestamp_filename(timestamp, nametag=None)`:
the `if nametag:` truthiness test (false for `None` and for the empty
string), then strip, then whitespace-run collapsing, then the final
conditional return joining the timestamp and the rebound `nametag` with
an underscore, where the rebound `nametag` may have become empty. -/
def get_timestamp_filename (t : Datetime) (nametag : Option String) : String :=
  let datetimeStr := strftimeFile t
  match nametag with
  | none => datetimeStr
  | some s =>
    if s = "" then datetimeStr
    else
      let s2 := subWs (pyStrip s)
      if s2 = "" then datetimeStr else datetimeStr ++ "_" ++ s2

/-- Spec-side reading of the filename format `YYYYMMDD-HHMM-SS` with a
four-digit zero-padded year (used to compare `strftimeFile` against the
words of the spec). -/
def specStampFormat (t : Datetime) : String :=
  (if t.year < 10 then "000" ++ natRepr t.year
   else if t.year < 100 then "00" ++ natRepr t.year
   else if t.year < 1000 then "0" ++ natRepr t.year
   else natRepr t.year) ++ pad2 t.month ++ pad2 t.day ++ "-" ++
    pad2 t.hour ++ pad2 t.minute ++ "-" ++ pad2 t.second




/-! ## Metadata values and their header rendering -/

/-- Restricted decimal model of a Python `float` for header rendering:
the value is `(-1)^neg * d0.d1 d2 ... * 10^ex` where `mantissa` lists the
significant decimal digits, most significant first.  The model covers
doubles whose exact shortest decimal significand has at most 19 digits,
so that `format` with specifier `.18e` performs no rounding. -/
structure DecFloat where
  neg : Bool
  mantissa : List Nat
  ex : Int
deriving DecidableEq, Repr

/-- Well-formedness of the decimal float model: one to 19 significant
digits, each a decimal digit, normalized (leading digit nonzero unless
the value is zero), and an exponent that prints with two digits. -/
def DecFloat.okB (f : DecFloat) : Bool :=
  decide (1 ≤ f.mantissa.length) && decide (f.mantissa.length ≤ 19) &&
    f.mantissa.all (fun d => d < 10) &&
    (f.mantissa.headD 0 ≠ 0 || f.mantissa = [0]) &&
    f.ex.natAbs < 100

/-- Exponent suffix of `%.18e` output: sign then at least two digits. -/
def expPart (e : Int) : String :=
  (if e < 0 then "-" else "+") ++ pad2 e.natAbs

/-- `format` with specifier `.18e` for a double in the `DecFloat` model: sign,
first significant digit, point, exactly 18 further digits (zero-padded),
then the exponent. -/
def pyFloat18e (f : DecFloat) : String :=
  let ds := (f.mantissa ++ List.replicate 19 0).take 19
  (if f.neg then "-" else "") ++ String.mk [digitChar (ds.headD 0)] ++ "." ++
    String.mk ((ds.drop 1).map digitChar) ++ "e" ++ expPart f.ex

/-- Metadata value as rendered by the header writers: the spec data model
restricts metadata values to the tagged union Integer / Float / Text
(other Python objects would go through `str()` and are outside the
modelled claims). -/
inductive MetaVal
  | mvInt (n : Int)
  | mvFloat (f : DecFloat)
  | mvStr (s : String)
deriving DecidableEq, Repr

/-- Value rendering used in the metadata loop of both `create_header`
implementations: `float` values via `.18e` formatting, `int` values via
`d` formatting, strings interpolated as-is. -/
def renderVal : MetaVal → String
  | .mvFloat f => pyFloat18e f
  | .mvInt n => pyIntD n
  | .mvStr s => s

/-- One metadata header line, mirroring the f-strings
`param: value` of the metadata loop. -/
def metaLine (p : String) (v : MetaVal) : String := p ++ ": " ++ renderVal v

/-- Number of significant (mantissa) digits in a rendered numeric string:
digit characters before the exponent marker. -/
def mantissaDigitCount (s : String) : Nat :=
  ((s.data.takeWhile (fun c => c ≠ 'e')).filter (fun c => c.isDigit)).length


/-! ## Header rendering (`create_header`) -/

/-- Column headers of a storage instance: absent, a single opaque string
written without formatting, or an ordered tuple of names. -/
inductive ColHeaders
  | cnone
  | cstr (s : String)
  | cseq (hs : List String)
deriving DecidableEq, Repr

/-- Right-biased Python `dict.update` on insertion-ordered association
lists over string keys: existing keys are overwritten in place, new keys
are appended in order. -/
def mSetItem (d : List (String × MetaVal)) (k : String) (v : MetaVal) :
    List (String × MetaVal) :=
  if (d.lookup k).isSome then
    d.map (fun p => if p.1 = k then (k, v) else p)
  else d ++ [(k, v)]

/-- `d.update(md)` for string-keyed metadata dicts. -/
def mUpdate (d md : List (String × MetaVal)) : List (String × MetaVal) :=
  md.foldl (fun acc p => mSetItem acc p.1 p.2) d

/-- Split a character list at newline characters; `acc` holds the
current line read so far, reversed. -/
def splitNlAux (acc : List Char) : List Char → List String
  | [] => [String.mk acc.reverse]
  | c :: rest =>
    if c = '\n' then String.mk acc.reverse :: splitNlAux [] rest
    else splitNlAux (c :: acc) rest

/-- Split a string into the list of its newline-separated pieces (the
semantics of `splitOn` with separator `\n`: always at least one piece,
a trailing newline contributes a final empty piece). -/
def splitNl (s : String) : List String := splitNlAux [] s.data

/-- Python `str.splitlines()` restricted to `\n` separators: like
`splitNl` but a trailing newline does not contribute an empty final
element, and the empty string yields no lines. -/
def pySplitlines (s : String) : List String :=
  let parts := splitNl s
  if parts.getLast? = some "" then parts.dropLast else parts


/-- Truthiness of the optional `notes` argument (`if notes:`). -/
def notesTruthy : Option String → Bool
  | none => false
  | some s => s ≠ ""

/-- Configuration of a `TextDataStorage` instance (fields relevant to the
claims; construction-time normalization of `file_extension` and the
non-empty-delimiter check are assumed to have succeeded). -/
structure TextCfg where
  root_dir : String
  file_extension : Option String
  include_global_metadata : Bool
  column_headers : ColHeaders
  comments : Option String
  delimiter : String
deriving DecidableEq, Repr

/-- The shared `header_lines` list of `TextDataStorage.create_header` and
`NpyDataStorage.create_header`: title line and blank line, optional notes
block, optional metadata section, then the given data section bannered by
`secTitle`/`secRule` and optional column-header line. -/
def headerLines (titleLine : String)
    (includeGlobal : Bool) (globalMeta localMeta : List (String × MetaVal))
    (notes : Option String) (secTitle secRule : String)
    (colLine : List String) : List String :=
  let allMeta := mUpdate (if includeGlobal then globalMeta else []) localMeta
  [titleLine, ""] ++
    (if notesTruthy notes then pySplitlines (notes.getD "") ++ [""] else []) ++
    (if allMeta.isEmpty then []
     else ["Metadata:", "========="] ++
       allMeta.map (fun p => metaLine p.1 p.2) ++ [""]) ++
    [secTitle, secRule] ++ colLine

/-- `TextDataStorage.create_header(metadata, notes, timestamp,
include_column_headers)`: builds the header lines, then joins them with
the comment marker prepended to every line (`line_sep` logic of the
source), and appends a final newline.  Global metadata (read under the
registry lock in the source) and local metadata are passed explicitly. -/
def text_create_header (cfg : TextCfg)
    (globalMeta localMeta : List (String × MetaVal))
    (notes : Option String) (ts : Datetime)
    (includeColHeaders : Bool) : String :=
  let colLine :=
    match cfg.column_headers, includeColHeaders with
    | .cstr s, true => [s]
    | .cseq hs, true => [String.intercalate cfg.delimiter hs]
    | _, _ => []
  let hl := headerLines ("Saved Data on " ++ strftimeLoc ts)
    cfg.include_global_metadata globalMeta localMeta notes "Data:" "=====" colLine
  let cm := cfg.comments.getD ""
  cm ++ String.intercalate ("\n" ++ cm) hl ++ "\n"

/-- `CsvDataStorage.create_header(metadata, notes, timestamp)`: a string
column header goes through the parent renderer inside the commented
block; a tuple of headers is joined by commas and appended uncommented
after the parent header; the comma delimiter is fixed at construction. -/
def csv_create_header (cfg : TextCfg)
    (globalMeta localMeta : List (String × MetaVal))
    (notes : Option String) (ts : Datetime) : String :=
  let cfg := { cfg with delimiter := "," }
  match cfg.column_headers with
  | .cstr _ => text_create_header cfg globalMeta localMeta notes ts true
  | .cseq hs =>
    text_create_header cfg globalMeta localMeta notes ts false ++
      String.intercalate "," hs ++ "\n"
  | .cnone => text_create_header cfg globalMeta localMeta notes ts false

/-- Configuration of an `NpyDataStorage` instance (its file extension is
fixed to `.npy` at construction). -/
structure NpyCfg where
  root_dir : String
  include_global_metadata : Bool
  column_headers : ColHeaders
deriving DecidableEq, Repr

/-- `NpyDataStorage.create_header(metadata, notes, timestamp)`.  Its
title line is the source expression that wraps an f-string whose only
replacement field is the literal 0 in a `.format` call on the formatted
timestamp; Python evaluates the f-string first, producing the fixed
string `Saved Data on 0`, and the subsequent `.format(...)` call finds
no replacement field left in it, so the formatted timestamp is
dropped.  The column section is bannered `Column headers:`,
a tuple of headers is joined by a comma and space, and no comment marker
is applied. -/
def npy_create_header (cfg : NpyCfg)
    (globalMeta localMeta : List (String × MetaVal))
    (notes : Option String) (ts : Datetime) : String :=
  let colLine :=
    match cfg.column_headers with
    | .cstr s => [s]
    | .cseq hs => [String.intercalate ", " hs]
    | .cnone => []
  let _ := strftimeLoc ts
  let hl := headerLines "Saved Data on 0"
    cfg.include_global_metadata globalMeta localMeta notes
    "Column headers:" "===============" colLine
  String.intercalate "\n" hl ++ "\n"





/-! ## The global metadata registry as a heap of Python objects

`DataStorageBase._global_metadata` is a mutable class-level dict.  To
state claims about shallow versus deep copying and about aliasing of
mutable values, dicts and lists live in an explicit heap addressed by
naturals; an `RVal` is an immutable scalar or a reference to a heap
cell.  Mutable metadata values are modelled as integer lists. -/

/-- Python dict key: the registry is meant to hold `str` keys, but the
source does not enforce this, so other hashable keys (modelled by `int`)
can appear. -/
inductive RKey
  | kstr (s : String)
  | kint (n : Int)
deriving DecidableEq, Repr

/-- Python value stored in a metadata dict: immutable scalar or a
reference to a heap object. -/
inductive RVal
  | rint (n : Int)
  | rstr (s : String)
  | rref (a : Nat)
deriving DecidableEq, Repr

/-- Heap object: a mutable list or a dict (insertion-ordered association
list). -/
inductive PyObj
  | plist (xs : List Int)
  | pdict (d : List (RKey × RVal))
deriving DecidableEq, Repr

/-- Heap: allocation counter and allocated cells (newest first). -/
structure PyMem where
  next : Nat
  cells : List (Nat × PyObj)
deriving DecidableEq, Repr

/-- Read the object at an address. -/
def PyMem.read (m : PyMem) (a : Nat) : Option PyObj :=
  m.cells.lookup a

/-- Replace the payload of a cell when its address matches. -/
def setCell (a : Nat) (o : PyObj) (p : Nat × PyObj) : Nat × PyObj :=
  if p.1 == a then (a, o) else p

/-- Overwrite the object at an (existing) address. -/
def PyMem.write (m : PyMem) (a : Nat) (o : PyObj) : PyMem :=
  ⟨m.next, m.cells.map (setCell a o)⟩

/-- Allocate a fresh cell holding `o`; returns its address. -/
def PyMem.alloc (m : PyMem) (o : PyObj) : Nat × PyMem :=
  (m.next, ⟨m.next + 1, (m.next, o) :: m.cells⟩)

/-- Heap well-formedness: every allocated address is below the
allocation counter. -/
def PyMem.wfB (m : PyMem) : Bool :=
  m.cells.all (fun p => p.1 < m.next)

/-- Dict lookup (Python `k in d` / `d[k]`). -/
def dlookup (d : List (RKey × RVal)) (k : RKey) : Option RVal :=
  d.lookup k

/-- Replace the value of an association-list entry when its key
matches. -/
def setEntry (k : RKey) (v : RVal) (p : RKey × RVal) : RKey × RVal :=
  if p.1 == k then (k, v) else p

/-- Python `d[k] = v` on the association-list representation: overwrite
in place if the key exists, else append. -/
def dsetItem (d : List (RKey × RVal)) (k : RKey) (v : RVal) :
    List (RKey × RVal) :=
  if (dlookup d k).isSome then d.map (setEntry k v) else d ++ [(k, v)]

/-- Python `d.update(md)`. -/
def dupdate (d md : List (RKey × RVal)) : List (RKey × RVal) :=
  md.foldl (fun acc p => dsetItem acc p.1 p.2) d

/-- Observable (dereferenced) value of an `RVal`: scalars unchanged,
references resolved to the list they point at. -/
inductive MatV
  | mint (n : Int)
  | mstr (s : String)
  | mlist (xs : List Int)
  | mnone
deriving DecidableEq, Repr

/-- Materialize one value through the heap. -/
def matVal (m : PyMem) : RVal → MatV
  | .rint n => .mint n
  | .rstr s => .mstr s
  | .rref a =>
    match m.read a with
    | some (.plist xs) => .mlist xs
    | _ => .mnone

/-- Materialize the dict at address `a`: what a Python caller observes
when reading all its entries. -/
def matDictAt (m : PyMem) (a : Nat) : List (RKey × MatV) :=
  match m.read a with
  | some (.pdict d) => d.map (fun p => (p.1, matVal m p.2))
  | _ => []

/-- Association list stored in the dict cell at `a` (empty if `a` does
not hold a dict). -/
def dictAt (m : PyMem) (a : Nat) : List (RKey × RVal) :=
  match m.read a with
  | some (.pdict d) => d
  | _ => []

/-- Python `d[k] = v` applied to the dict object at address `a`. -/
def dict_setitem (m : PyMem) (a : Nat) (k : RKey) (v : RVal) : PyMem :=
  match m.read a with
  | some (.pdict d) => m.write a (.pdict (dsetItem d k v))
  | _ => m

/-- Python `xs.append(x)` applied to the list object at address `a`. -/
def list_append (m : PyMem) (a : Nat) (x : Int) : PyMem :=
  match m.read a with
  | some (.plist xs) => m.write a (.plist (xs ++ [x]))
  | _ => m

/-! ## Registry operations -/

/-- `DataStorageBase.get_global_metadata()`: under the registry lock,
return `cls._global_metadata.copy()` — a fresh dict object holding the
same association list, with value references shared (a shallow copy).
`reg` is the heap address of the live registry dict. -/
def get_global_metadata (m : PyMem) (reg : Nat) : Nat × PyMem :=
  match m.read reg with
  | some (.pdict d) => m.alloc (.pdict d)
  | _ => m.alloc (.pdict [])

/-- `copy.deepcopy` of a single metadata value: scalars are returned
as-is, a reference to a list is re-allocated with the same contents.
(Mutable metadata values are modelled as lists, so a reference never
points at a dict here.) -/
def deepcopyVal (m : PyMem) (v : RVal) : RVal × PyMem :=
  match v with
  | .rref a =>
    match m.read a with
    | some (.plist xs) =>
      let r := m.alloc (.plist xs)
      (.rref r.1, r.2)
    | _ => (v, m)
  | _ => (v, m)

/-- `copy.deepcopy(name)` for a metadata dict argument: deep-copies every
value, keeping keys and order. -/
def deepcopyEntries (m : PyMem) : List (RKey × RVal) →
    List (RKey × RVal) × PyMem
  | [] => ([], m)
  | p :: rest =>
    let r := deepcopyVal m p.2
    let rr := deepcopyEntries r.2 rest
    ((p.1, r.1) :: rr.1, rr.2)

/-- Argument of `add_global_metadata`: a single `str` key with a value, a
dict of entries, or anything else (which raises `TypeError`). -/
inductive NameArg
  | nstr (k : String) (v : RVal)
  | ndict (entries : List (RKey × RVal))
  | nother
deriving DecidableEq, Repr

/-- The locked tail of `add_global_metadata`: compute the duplicate keys
of the prepared `metadata` dict against the registry; if `overwrite` is
false and there is one, raise `KeyError` before touching the registry;
otherwise `cls._global_metadata.update(metadata)`. -/
def mergeLocked (m : PyMem) (reg : Nat) (md : List (RKey × RVal))
    (overwrite : Bool) : Except PyError Unit × PyMem :=
  match m.read reg with
  | some (.pdict d) =>
    if !overwrite && md.any (fun p => (dlookup d p.1).isSome) then
      (Except.error PyError.keyError, m)
    else
      (Except.ok (), m.write reg (.pdict (dupdate d md)))
  | _ => (Except.error PyError.keyError, m)

/-- `DataStorageBase.add_global_metadata(name, value, overwrite)`.  For a
`str` first argument the entry is the deep-copied value under that key;
for a dict first argument the source evaluates the expression
`TypeError(...)` (non-str metadata keys message) when a
non-str key is present but never raises it (the `raise` keyword is
missing), then deep-copies the dict; any other first argument raises
`TypeError`.  The prepared dict is then merged under the lock. -/
def add_global_metadata (m : PyMem) (reg : Nat) (name : NameArg)
    (overwrite : Bool) : Except PyError Unit × PyMem :=
  match name with
  | .nstr k v =>
    let r := deepcopyVal m v
    mergeLocked r.2 reg [(RKey.kstr k, r.1)] overwrite
  | .ndict es =>
    let r := deepcopyEntries m es
    mergeLocked r.2 reg r.1 overwrite
  | .nother => (Except.error PyError.typeError, m)



/-! ## File system and the save operations

Files are a path-to-content association; writes and appends are explicit.
The numeric body of a data file (the `np.savetxt` text rows and the
`np.save` binary encoding) is represented by an opaque marker derived
from the array, since no verified claim inspects the numeric body; the
header text is rendered in full. -/

/-- File system state: newest write first; at most one entry per path. -/
structure PyFS where
  files : List (String × String)
deriving DecidableEq, Repr

/-- `open(path, w)` followed by a full write: replaces any previous
content. -/
def PyFS.writeNew (fs : PyFS) (p c : String) : PyFS :=
  ⟨(p, c) :: fs.files.filter (fun q => !(q.1 == p))⟩

/-- Content of the file at `p`, if it exists. -/
def PyFS.readF (fs : PyFS) (p : String) : Option String :=
  fs.files.lookup p

/-- `os.path.isfile`. -/
def PyFS.isfile (fs : PyFS) (p : String) : Bool :=
  (fs.readF p).isSome

/-- `open(path, a)` followed by a write: appends to the existing
content (the callers only append to files they know exist). -/
def PyFS.appendF (fs : PyFS) (p c : String) : PyFS :=
  ⟨fs.files.map (fun q => if q.1 = p then (p, q.2 ++ c) else q)⟩

/-- Shape-carrying stand-in for a `numpy.ndarray`; only the shape drives
the control flow of the claims. -/
structure NDArray where
  shape : List Nat
deriving DecidableEq, Repr

/-- `ndarray.ndim`. -/
def NDArray.ndim (a : NDArray) : Nat := a.shape.length

/-- Opaque marker for the text rows `np.savetxt` would emit for `a`. -/
def rowsBlob (a : NDArray) : String := "<rows " ++ natRepr a.ndim ++ ">"

/-- Opaque marker for the binary `.npy` encoding of `a`. -/
def npyBlob (a : NDArray) : String := "<npy " ++ natRepr a.ndim ++ ">"

/-- Modelled from the spec: `create_file_path` (PathResolver) is present
in the source only as commented-out code and call sites, so it is
modelled from §4.5 of the spec: an explicit filename wins over
nametag/timestamp, otherwise the generic filename is derived by the
filename policy; a configured extension is appended when the name does
not already end with it; directory handling is out of the model. -/
def create_file_path (root : String) (ext : Option String) (ts : Datetime)
    (filename nametag : Option String) : String :=
  let fn := filename.getD (get_timestamp_filename ts nametag)
  let fn :=
    match ext with
    | some e => if e.data.isSuffixOf fn.data then fn else fn ++ e
    | none => fn
  root ++ "/" ++ fn

/-- `TextDataStorage.new_data_file`: resolve the path, render the header
(with column headers included) and write it, overwriting silently.
Returns the path that also becomes `_current_data_file`. -/
def text_new_data_file (cfg : TextCfg) (fs : PyFS)
    (globalMeta localMeta : List (String × MetaVal)) (notes : Option String)
    (filename nametag : Option String) (ts : Datetime) : String × PyFS :=
  let path := create_file_path cfg.root_dir cfg.file_extension ts filename nametag
  let hdr := text_create_header cfg globalMeta localMeta notes ts true
  (path, fs.writeNew path hdr)

/-- `TextDataStorage.append_data_file(data, file_path)`: fall back to the
remembered `_current_data_file`, fail with `FileNotFoundError` if there
is no target or it does not exist, then `np.savetxt` the rows: a 1-D
array is a single row, a 2-D array is written row-wise, and any other
rank makes `np.savetxt` raise `ValueError` (it checks the rank before
writing anything).  Returns the (rows, columns) counts of the source. -/
def text_append_data_file (fs : PyFS) (a : NDArray)
    (filePath cur : Option String) : Except PyError (Nat × Nat) × PyFS :=
  match filePath.orElse (fun _ => cur) with
  | none => (Except.error PyError.fileNotFoundError, fs)
  | some fp =>
    if fs.isfile fp then
      match a.shape with
      | [n] => (Except.ok (1, n), fs.appendF fp (rowsBlob a))
      | [r, c] => (Except.ok (r, c), fs.appendF fp (rowsBlob a))
      | _ => (Except.error PyError.valueError, fs)
    else (Except.error PyError.fileNotFoundError, fs)

/-- `TextDataStorage.save_data`: `new_data_file` (which writes the header
file) immediately followed by `append_data_file` on the same path; an
exception from the append step propagates after the header file has
already been created. -/
def text_save_data (cfg : TextCfg) (fs : PyFS)
    (globalMeta localMeta : List (String × MetaVal)) (notes : Option String)
    (filename nametag : Option String) (ts : Datetime) (a : NDArray) :
    Except PyError (String × Datetime × (Nat × Nat)) × PyFS :=
  let r := text_new_data_file cfg fs globalMeta localMeta notes filename nametag ts
  let r2 := text_append_data_file r.2 a none (some r.1)
  match r2.1 with
  | .ok rc => (Except.ok (r.1, ts, rc), r2.2)
  | .error e => (Except.error e, r2.2)

/-- The head of `rsplit` on the last dot: everything before the last
dot, or the whole string when there is no dot. -/
def rsplitDotHead (s : String) : String :=
  if s.data.contains '.' then
    String.mk (((s.data.reverse.dropWhile (fun c => c ≠ '.')).drop 1).reverse)
  else s


/-- `NpyDataStorage.save_data`: resolve the `.npy` path, `np.save` the
array (any rank is accepted; pickling disabled), then write the sidecar
text file `<base>_metadata.txt` holding the rendered header.  `failing`
models environment-side I/O failures: opening a path in it raises
`OSError`, which the source propagates unhandled — there is no
compensating action for the already-written primary file. -/
def npy_save_data (cfg : NpyCfg) (fs : PyFS)
    (globalMeta localMeta : List (String × MetaVal)) (notes : Option String)
    (filename nametag : Option String) (ts : Datetime) (a : NDArray)
    (failing : List String) :
    Except PyError (String × Datetime × List Nat) × PyFS :=
  let path := create_file_path cfg.root_dir (some ".npy") ts filename nametag
  if failing.contains path then (Except.error PyError.osError, fs)
  else
    let fs1 := fs.writeNew path (npyBlob a)
    let side := rsplitDotHead path ++ "_metadata.txt"
    if failing.contains side then (Except.error PyError.osError, fs1)
    else
      let hdr := npy_create_header cfg globalMeta localMeta notes ts
      (Except.ok (path, ts, a.shape), fs1.writeNew side hdr)



/-- Boolean infix test on character lists (used to state that a string
does not occur inside another). -/
def subListB (a : List Char) : List Char → Bool
  | [] => a.isEmpty
  | c :: bs => a.isPrefixOf (c :: bs) || subListB a bs

/-- String key test for dict keys. -/
def isStrKeyB : RKey → Bool
  | .kstr _ => true
  | .kint _ => false

/-- Duplicate-key test of `add_global_metadata`: some entry key is
already present in the registry dict. -/
def hasDupB (d es : List (RKey × RVal)) : Bool :=
  es.any (fun p => (dlookup d p.1).isSome)

/-- Validity of one value with respect to a heap: a reference points
below the allocation counter. -/
def valOkB (m : PyMem) : RVal → Bool
  | .rref a => decide (a < m.next)
  | _ => true

/-- Validity of the references stored in a list of dict entries with
respect to a heap. -/
def valsOkB (m : PyMem) (es : List (RKey × RVal)) : Bool :=
  es.all (fun p => valOkB m p.2)

/-- Entries as a Python caller observes them: keys with materialized
values. -/
def matEntries (m : PyMem) (es : List (RKey × RVal)) : List (RKey × MatV) :=
  es.map (fun p => (p.1, matVal m p.2))

/-- Heap extension: the allocation counter does not shrink and reads of
already-allocated addresses are unchanged. -/
def extM (m m2 : PyMem) : Prop :=
  m.next ≤ m2.next ∧ ∀ a, a < m.next → m2.read a = m.read a

/-- Fixed demonstration timestamp `2021-01-30 11:30:59`. -/
def ts0 : Datetime := ⟨2021, 1, 30, 11, 30, 59⟩

/-! ## Helper lemmas -/

/-- The first element surviving `dropWhile` falsifies the predicate. -/
theorem dropWhile_head_false {p : Char → Bool} :
    ∀ (l : List Char) (c : Char) (rest : List Char),
      l.dropWhile p = c :: rest → p c = false := by
  intro l
  induction l with
  | nil => intro c rest h; simp [List.dropWhile] at h
  | cons a l ih =>
    intro c rest h
    by_cases ha : p a
    · rw [List.dropWhile_cons_of_pos ha] at h
      exact ih c rest h
    · rw [List.dropWhile_cons_of_neg ha] at h
      cases h
      exact Bool.of_not_eq_true ha

/-- A non-empty stripped string contains a non-whitespace character. -/
theorem exists_nonspace_of_strip_ne (s : String) (h : pyStrip s ≠ "") :
    ∃ c ∈ (pyStrip s).data, pyIsSpace c = false := by
  unfold pyStrip at *
  set l2 := (s.data.dropWhile pyIsSpace).reverse.dropWhile pyIsSpace with hl2
  have hne : l2 ≠ [] := by
    intro hnil
    apply h
    rw [← hl2] at *
    simp [hnil]
  obtain ⟨c, rest, hcr⟩ := List.exists_cons_of_ne_nil hne
  refine ⟨c, ?_, ?_⟩
  · show c ∈ l2.reverse
    rw [hcr]; simp
  · exact dropWhile_head_false _ c rest (hl2 ▸ hcr)

/-- Whitespace collapsing never outputs a whitespace character. -/
theorem subWsAux_no_space :
    ∀ (b : Bool) (l : List Char),
      (subWsAux b l).all (fun c => !pyIsSpace c) = true := by
  intro b l
  induction l generalizing b with
  | nil => simp [subWsAux]
  | cons c rest ih =>
    simp only [subWsAux]
    by_cases hc : pyIsSpace c = true
    · rw [if_pos hc]
      cases b
      · have h2 : (!pyIsSpace '_') = true := by decide
        simp [List.all_cons, ih true, h2]
      · simpa using ih true
    · rw [if_neg hc]
      have hcf : pyIsSpace c = false := Bool.of_not_eq_true hc
      simp [List.all_cons, ih false, hcf]

/-- A list with a non-whitespace character collapses to a non-empty
list. -/
theorem subWsAux_ne_nil :
    ∀ (b : Bool) (l : List Char), (∃ c ∈ l, pyIsSpace c = false) →
      subWsAux b l ≠ [] := by
  intro b l
  induction l generalizing b with
  | nil => rintro ⟨c, hc, -⟩; simp at hc
  | cons c rest ih =>
    rintro ⟨c0, hc0, hc0f⟩
    by_cases hc : pyIsSpace c
    · have hmem : c0 ∈ rest := by
        rcases List.mem_cons.mp hc0 with h | h
        · subst h; rw [hc] at hc0f; cases hc0f
        · exact h
      simp only [subWsAux, hc, if_true]
      cases b
      · simp
      · simpa using ih true ⟨c0, hmem, hc0f⟩
    · simp [subWsAux, hc]

/-- A tag with visible content stays non-empty after normalization. -/
theorem subWs_strip_ne (s : String) (h : pyStrip s ≠ "") :
    subWs (pyStrip s) ≠ "" := by
  obtain ⟨c, hmem, hns⟩ := exists_nonspace_of_strip_ne s h
  have := subWsAux_ne_nil false (pyStrip s).data ⟨c, hmem, hns⟩
  intro hcon
  apply this
  have : (subWs (pyStrip s)).data = ([] : List Char) := by rw [hcon]
  simpa [subWs] using this

/-! ## C3: blank-tag behavior of the filename policy -/

/-- C3 counterexample: the claim says a whitespace-only explicitly
supplied tag makes `get_timestamp_filename` fail with `InvalidTag`; in
the source the function is total and returns the bare timestamp string,
identical to supplying no tag at all. -/
theorem c3_blank_tag_no_error :
    get_timestamp_filename ts0 (some " \t ") = "20210130-1130-59" ∧
    get_timestamp_filename ts0 none = "20210130-1130-59" := by
  decide

/-- C3 amended: a tag that is empty after trimming and whitespace
collapsing is treated exactly like supplying no tag: the bare timestamp
filename is returned and no error is raised. -/
theorem c3_blank_tag_same_as_none (t : Datetime) (s : String)
    (h : subWs (pyStrip s) = "") :
    get_timestamp_filename t (some s) = get_timestamp_filename t none := by
  by_cases hs : s = "" <;> simp [get_timestamp_filename, hs, h]

/-- C3 witness. -/
theorem c3_blank_tag_same_as_none_witness :
    get_timestamp_filename ⟨2022, 5, 6, 7, 8, 9⟩ (some "   ") =
      get_timestamp_filename ⟨2022, 5, 6, 7, 8, 9⟩ none :=
  c3_blank_tag_same_as_none ⟨2022, 5, 6, 7, 8, 9⟩ "   " (by decide)

/-! ## C7: filename format and whitespace normalization -/

/-- C7: the generic filename starts with the timestamp in
`YYYYMMDD-HHMM-SS` form; a supplied tag is trimmed, its whitespace runs
collapse to single underscores, and it is appended after an underscore;
normalization of a tag with visible content never leaves whitespace in
the result, and in particular the tags `  a   b ` and `a_b` yield the
same filename. -/
theorem c7_generic_filename (t : Datetime) (hy : 1000 ≤ t.year) :
    strftimeFile t = specStampFormat t ∧
    get_timestamp_filename t (some "  a   b ") =
      get_timestamp_filename t (some "a_b") ∧
    get_timestamp_filename t (some "  a   b ") =
      strftimeFile t ++ "_" ++ "a_b" ∧
    (∀ s : String, pyStrip s ≠ "" →
      get_timestamp_filename t (some s) =
        strftimeFile t ++ "_" ++ subWs (pyStrip s) ∧
      (subWs (pyStrip s)).data.all (fun c => !pyIsSpace c) = true) := by
  refine ⟨?_, ?_, ?_, ?_⟩
  · have h10 : ¬ t.year < 10 := by omega
    have h100 : ¬ t.year < 100 := by omega
    have h1000 : ¬ t.year < 1000 := by omega
    simp [strftimeFile, specStampFormat, h10, h100, h1000]
  · have h1 : subWs (pyStrip "  a   b ") = "a_b" := by decide
    have h2 : subWs (pyStrip "a_b") = "a_b" := by decide
    simp [get_timestamp_filename, h1, h2]
  · have h1 : subWs (pyStrip "  a   b ") = "a_b" := by decide
    simp [get_timestamp_filename, h1]
  · intro s hstrip
    have hs : s ≠ "" := by
      intro hnil
      apply hstrip
      rw [hnil]; decide
    have hsub := subWs_strip_ne s hstrip
    constructor
    · simp [get_timestamp_filename, hs, hsub]
    · exact subWsAux_no_space false (pyStrip s).data

/-- C7 witness. -/
theorem c7_generic_filename_witness :
    strftimeFile ts0 = specStampFormat ts0 ∧
    get_timestamp_filename ts0 (some "  a   b ") =
      get_timestamp_filename ts0 (some "a_b") :=
  ⟨(c7_generic_filename ts0 (by decide)).1,
   (c7_generic_filename ts0 (by decide)).2.1⟩

/-! ## C5: comment prefix on the CSV column-header line -/

/-- C5 counterexample: with a comment marker configured and the column
headers given as one single opaque string, the CSV header renders the
column-header line inside the commented block — every line of the
produced header, including the column-header line `# x,y`, carries the
comment marker, contradicting the claim that the column-header line is
never prefixed. -/
theorem c5_string_headers_are_commented :
    csv_create_header ⟨"root", some ".csv", true, ColHeaders.cstr "x,y",
        some "# ", ","⟩ [] [] none ts0 =
      "# Saved Data on 30.01.2021 at 11h30m59s\n# \n# Data:\n# =====\n# x,y\n" ∧
    (splitNl (csv_create_header ⟨"root", some ".csv", true,
        ColHeaders.cstr "x,y", some "# ", ","⟩ [] [] none ts0)).all
      (fun l => l = "" || l.data.take 2 = ['#', ' ']) = true := by
  decide

/-- C5 amended: only column headers given as an ordered sequence of
names are appended as a plain comma-joined row after the (possibly
commented) descriptive header; a single opaque string is rendered inside
the commented header block by the parent renderer. -/
theorem c5_csv_header_split (cfg : TextCfg)
    (gm lm : List (String × MetaVal)) (notes : Option String)
    (ts : Datetime) :
    (∀ hs, cfg.column_headers = ColHeaders.cseq hs →
      csv_create_header cfg gm lm notes ts =
        text_create_header { cfg with delimiter := "," } gm lm notes ts false ++
          (String.intercalate "," hs ++ "\n")) ∧
    (∀ s, cfg.column_headers = ColHeaders.cstr s →
      csv_create_header cfg gm lm notes ts =
        text_create_header { cfg with delimiter := "," } gm lm notes ts true) := by
  constructor
  · intro hs h
    simp [csv_create_header, h, String.append_assoc]
  · intro s h
    simp [csv_create_header, h]

/-- C5 witness: with sequence headers the comma row follows the
commented block unprefixed. -/
theorem c5_csv_header_split_witness :
    csv_create_header ⟨"root", some ".csv", true, ColHeaders.cseq ["x", "y"],
        some "# ", ","⟩ [] [] none ts0 =
      text_create_header ⟨"root", some ".csv", true, ColHeaders.cseq ["x", "y"],
        some "# ", ","⟩ [] [] none ts0 false ++
        (String.intercalate "," ["x", "y"] ++ "\n") ∧
    csv_create_header ⟨"root", some ".csv", true, ColHeaders.cseq ["x", "y"],
        some "# ", ","⟩ [] [] none ts0 =
      "# Saved Data on 30.01.2021 at 11h30m59s\n# \n# Data:\n# =====\nx,y\n" :=
  ⟨(c5_csv_header_split ⟨"root", some ".csv", true, ColHeaders.cseq ["x", "y"],
      some "# ", ","⟩ [] [] none ts0).1 ["x", "y"] rfl,
   by decide⟩

/-! ## C6: header title line and timestamp -/

/-- C6: the claim says both header renderers begin with a title line
containing the localized timestamp followed by a blank line.  The text
renderer does; the binary-sidecar renderer mixes an
f-string with a `.format(...)` call, whose f-string part already produced
the literal text `Saved Data on 0`, so the formatted timestamp is
dropped from the title line: the code contradicts the evident intent
(its sibling text renderer formats the same line correctly). -/
theorem c6_npy_title_drops_timestamp :
    (splitNl (npy_create_header ⟨"root", true, ColHeaders.cnone⟩ [] [] none
        ts0)).headD "" = "Saved Data on 0" ∧
    subListB (strftimeLoc ts0).data
      ((splitNl (npy_create_header ⟨"root", true, ColHeaders.cnone⟩ [] [] none
        ts0)).headD "").data = false ∧
    (splitNl (npy_create_header ⟨"root", true, ColHeaders.cnone⟩ [] [] none
        ts0)).get? 1 = some "" ∧
    (splitNl (text_create_header ⟨"root", some ".dat", true, ColHeaders.cnone,
        some "# ", "\t"⟩ [] [] none ts0 true)).headD "" =
      "# Saved Data on 30.01.2021 at 11h30m59s" ∧
    strftimeLoc ts0 = "30.01.2021 at 11h30m59s" := by
  decide

/-! ## C9: numeric rendering in headers -/

/-- String concatenation acts as list concatenation on the character
data. -/
theorem data_append (a b : String) : (a ++ b).data = a.data ++ b.data := by
  cases a; cases b; rfl

/-- Decimal digit characters are digits. -/
theorem digitChar_isDigit (d : Nat) (h : d < 10) :
    (digitChar d).isDigit = true := by
  interval_cases d <;> decide

/-- Decimal digit characters are not the exponent marker. -/
theorem digitChar_ne_e (d : Nat) (h : d < 10) : digitChar d ≠ 'e' := by
  interval_cases d <;> decide

/-- `takeWhile` walks through a block that satisfies the predicate. -/
theorem takeWhile_app_of_all {p : Char → Bool} :
    ∀ (l₁ l₂ : List Char), (∀ c ∈ l₁, p c = true) →
      (l₁ ++ l₂).takeWhile p = l₁ ++ l₂.takeWhile p := by
  intro l₁
  induction l₁ with
  | nil => intro l₂ _; simp
  | cons a l ih =>
    intro l₂ h
    rw [List.cons_append, List.takeWhile_cons_of_pos (h a (List.mem_cons_self a l)),
      ih l₂ (fun c hc => h c (List.mem_cons_of_mem a hc)), List.cons_append]

/-- Every character produced by `digitsGo` from a digit-only accumulator
satisfies any predicate true on digit characters. -/
theorem digitsGo_chars (P : Char → Bool)
    (hP : ∀ d, d < 10 → P (digitChar d) = true) :
    ∀ (fuel n : Nat) (acc : List Char), (∀ c ∈ acc, P c = true) →
      ∀ c ∈ digitsGo fuel n acc, P c = true := by
  intro fuel
  induction fuel with
  | zero => intro n acc hacc; simpa [digitsGo] using hacc
  | succ f ih =>
    intro n acc hacc c hc
    simp only [digitsGo] at hc
    by_cases hn : n < 10
    · rw [if_pos hn] at hc
      rcases List.mem_cons.mp hc with h | h
      · subst h; exact hP n hn
      · exact hacc c h
    · rw [if_neg hn] at hc
      refine ih (n / 10) _ ?_ c hc
      intro c' hc'
      rcases List.mem_cons.mp hc' with h | h
      · subst h; exact hP _ (Nat.mod_lt _ (by norm_num))
      · exact hacc c' h

/-- C9 amended: a floating-point metadata value is rendered in `%.18e`
scientific notation — one digit before the point and 18 after, hence 19
significant digits, not 18 — and an integer metadata value is rendered
as an optional sign followed by decimal digits only. -/
theorem c9_numeric_rendering (f : DecFloat) (hf : f.okB = true) (n : Int) :
    mantissaDigitCount (renderVal (MetaVal.mvFloat f)) = 19 ∧
    (renderVal (MetaVal.mvInt n)).data.all
      (fun c => c.isDigit || c = '-') = true := by
  constructor
  · -- float case
    simp only [DecFloat.okB, Bool.and_eq_true, decide_eq_true_eq,
      List.all_eq_true] at hf
    obtain ⟨⟨⟨⟨-, hlen19⟩, hdig⟩, -⟩, -⟩ := hf
    set ds := (f.mantissa ++ List.replicate 19 0).take 19 with hds
    have hdslen : ds.length = 19 := by
      rw [hds, List.length_take, List.length_append, List.length_replicate]
      omega
    have hdsd : ∀ d ∈ ds, d < 10 := by
      intro d hd
      rcases List.mem_append.mp (List.mem_of_mem_take hd) with h | h
      · exact hdig d h
      · rw [List.eq_of_mem_replicate h]; norm_num
    have hhead : ds.headD 0 < 10 := by
      rcases hd : ds with _ | ⟨d0, rest⟩
      · rw [hd] at hdslen; simp at hdslen
      · have hm : d0 ∈ ds := by rw [hd]; exact List.mem_cons_self _ _
        simpa using hdsd d0 hm
    have hdata : (renderVal (MetaVal.mvFloat f)).data =
        ((if f.neg then ['-'] else []) ++
          (digitChar (ds.headD 0) :: '.' :: (ds.drop 1).map digitChar)) ++
          ('e' :: (expPart f.ex).data) := by
      show (pyFloat18e f).data = _
      rw [pyFloat18e]
      cases f.neg <;>
        simp [data_append, hds, List.append_assoc]
    rw [mantissaDigitCount, hdata]
    have hpre : ∀ c ∈ (if f.neg then ['-'] else []) ++
        (digitChar (ds.headD 0) :: '.' :: (ds.drop 1).map digitChar),
        (fun c => decide ¬(c = 'e')) c = true := by
      intro c hc
      simp only [decide_eq_true_eq]
      rcases List.mem_append.mp hc with h | h
      · cases hn : f.neg
        · rw [hn] at h; simp at h
        · rw [hn] at h
          rcases List.mem_cons.mp h with rfl | h
          · decide
          · simp at h
      · rcases List.mem_cons.mp h with rfl | h
        · exact digitChar_ne_e _ hhead
        · rcases List.mem_cons.mp h with rfl | h
          · decide
          · obtain ⟨d, hd, rfl⟩ := List.mem_map.mp h
            exact digitChar_ne_e d (hdsd d (List.mem_of_mem_drop hd))
    rw [takeWhile_app_of_all _ _ hpre, List.takeWhile_cons_of_neg (by decide),
      List.append_nil, List.filter_append]
    have hsign : ((if f.neg then ['-'] else []).filter
        (fun c => c.isDigit)).length = 0 := by
      cases f.neg <;> decide
    rw [List.length_append, hsign, Nat.zero_add, List.filter_cons_of_pos
      (digitChar_isDigit _ hhead), List.filter_cons_of_neg (by decide)]
    have hfil : ((ds.drop 1).map digitChar).filter (fun c => c.isDigit) =
        (ds.drop 1).map digitChar := by
      rw [List.filter_eq_self]
      intro c hc
      obtain ⟨d, hd, rfl⟩ := List.mem_map.mp hc
      exact digitChar_isDigit d (hdsd d (List.mem_of_mem_drop hd))
    rw [hfil]
    simp [List.length_map, hdslen]
  · -- int case
    show (pyIntD n).data.all _ = true
    have hdigits : (natRepr n.natAbs).data.all
        (fun c => c.isDigit || c = '-') = true := by
      rw [List.all_eq_true]
      intro c hc
      have := digitsGo_chars (fun c => c.isDigit || decide (c = '-'))
        (fun d hd => by simp [digitChar_isDigit d hd])
        (n.natAbs + 1) n.natAbs [] (by simp) c (by simpa [natRepr] using hc)
      simpa using this
    have hsign : ((if n < 0 then "-" else "") : String).data.all
        (fun c => c.isDigit || c = '-') = true := by
      by_cases hneg : n < 0
      · rw [if_pos hneg]; decide
      · rw [if_neg hneg]; decide
    rw [pyIntD, data_append, List.all_append, hsign, hdigits]
    rfl

/-! ## File-system lemmas -/

/-- Filtering out entries for another path does not change a lookup. -/
theorem lookup_filter_ne (q p : String) (h : q ≠ p) :
    ∀ l : List (String × String),
      (l.filter (fun e => !(e.1 == p))).lookup q = l.lookup q := by
  intro l
  induction l with
  | nil => rfl
  | cons e l ih =>
    obtain ⟨k, v⟩ := e
    by_cases hk : k = p
    · subst hk
      rw [List.filter_cons_of_neg (by simp)]
      have hqk : (q == k) = false := by simp [h]
      simp [List.lookup, hqk, ih]
    · rw [List.filter_cons_of_pos (by simp [hk])]
      by_cases hqk : q = k
      · subst hqk; simp [List.lookup]
      · have hb : (q == k) = false := by simp [hqk]
        simp [List.lookup, hb, ih]

/-- Reading after a write: the written path returns the new content,
every other path is untouched. -/
theorem readF_writeNew (fs : PyFS) (p c q : String) :
    (fs.writeNew p c).readF q = if q = p then some c else fs.readF q := by
  by_cases h : q = p
  · subst h; simp [PyFS.writeNew, PyFS.readF, List.lookup]
  · rw [if_neg h]
    have hb : (q == p) = false := by simp [h]
    simp [PyFS.writeNew, PyFS.readF, List.lookup, hb, lookup_filter_ne q p h]

/-- A just-written file exists. -/
theorem isfile_writeNew_self (fs : PyFS) (p c : String) :
    (fs.writeNew p c).isfile p = true := by
  simp [PyFS.isfile, readF_writeNew]

/-- The resolved `.npy` path ends with the character `y`. -/
theorem create_file_path_npy_last (root : String) (ts : Datetime)
    (filename nametag : Option String) :
    (create_file_path root (some ".npy") ts filename nametag).data.getLast? =
      some 'y' := by
  unfold create_file_path
  dsimp only
  set fn := filename.getD (get_timestamp_filename ts nametag) with hfn
  by_cases hsuf : (".npy" : String).data.isSuffixOf fn.data
  · rw [if_pos hsuf]
    obtain ⟨t, ht⟩ := List.isSuffixOf_iff_suffix.mp hsuf
    have hne : fn.data ≠ [] := by
      rw [← ht]
      simp
    rw [data_append, List.getLast?_append_of_ne_nil _ hne, ← ht,
      List.getLast?_append_of_ne_nil _ (by decide)]
    decide
  · rw [if_neg hsuf]
    have hne2 : (fn ++ ".npy").data ≠ [] := by
      rw [data_append]
      intro hx
      have hlen := congrArg List.length hx
      rw [List.length_append, List.length_nil] at hlen
      have h4 : (".npy" : String).data.length = 4 := by decide
      rw [h4] at hlen
      omega
    rw [data_append, List.getLast?_append_of_ne_nil _ hne2, data_append,
      List.getLast?_append_of_ne_nil _ (by decide)]
    decide

/-- The sidecar path ends with the character `t`. -/
theorem side_path_last (base : String) :
    (base ++ "_metadata.txt").data.getLast? = some 't' := by
  rw [data_append, List.getLast?_append_of_ne_nil _ (by decide)]
  decide

/-- The primary `.npy` path and its sidecar path are distinct files. -/
theorem npy_path_ne_side (root : String) (ts : Datetime)
    (filename nametag : Option String) :
    create_file_path root (some ".npy") ts filename nametag ≠
      rsplitDotHead (create_file_path root (some ".npy") ts filename nametag) ++
        "_metadata.txt" := by
  intro h
  have h1 := create_file_path_npy_last root ts filename nametag
  rw [h, side_path_last] at h1
  cases h1

/-- C9 witness. -/
theorem c9_numeric_rendering_witness :
    mantissaDigitCount (renderVal (MetaVal.mvFloat ⟨true, [2, 5], -3⟩)) = 19 ∧
    (renderVal (MetaVal.mvInt (-5))).data.all
      (fun c => c.isDigit || c = '-') = true :=
  c9_numeric_rendering ⟨true, [2, 5], -3⟩ (by decide) (-5)

/-! ## C4: arrays with more than two dimensions -/

/-- C4 counterexample: on a 3-dimensional array the binary backend
succeeds (NumPy `save` accepts any rank), and the text backend does fail
(with an untyped `ValueError` from `np.savetxt`, not a dedicated
`UnsupportedShape` error) but only after its header file has already
been created — so neither conjunct of the claim holds. -/
theorem c4_highdim_not_rejected_everywhere :
    (npy_save_data ⟨"root", true, ColHeaders.cnone⟩ ⟨[]⟩ [] [] none none
        (some "run") ts0 ⟨[2, 2, 2]⟩ []).1 =
      Except.ok ("root/20210130-1130-59_run.npy", ts0, [2, 2, 2]) ∧
    (text_save_data ⟨"root", some ".dat", true, ColHeaders.cnone, some "# ",
        "\t"⟩ ⟨[]⟩ [] [] none none (some "run") ts0 ⟨[2, 2, 2]⟩).1 =
      Except.error PyError.valueError ∧
    ((text_save_data ⟨"root", some ".dat", true, ColHeaders.cnone, some "# ",
        "\t"⟩ ⟨[]⟩ [] [] none none (some "run") ts0 ⟨[2, 2, 2]⟩).2).isfile
      "root/20210130-1130-59_run.dat" = true := by
  decide

/-- C4 amended: for the text backends, `save_data` on data of rank above
two raises the untyped `ValueError` coming from `np.savetxt`, but the
header file has already been written when that happens; the binary
backend accepts arrays of any rank and reports success. -/
theorem c4_highdim_behavior (cfg : TextCfg) (ncfg : NpyCfg) (fs nfs : PyFS)
    (gm lm : List (String × MetaVal)) (notes : Option String)
    (filename nametag : Option String) (ts : Datetime) (a : NDArray)
    (h : 2 < a.ndim) :
    (text_save_data cfg fs gm lm notes filename nametag ts a).1 =
        Except.error PyError.valueError ∧
    ((text_save_data cfg fs gm lm notes filename nametag ts a).2).isfile
        (create_file_path cfg.root_dir cfg.file_extension ts filename
          nametag) = true ∧
    (npy_save_data ncfg nfs gm lm notes filename nametag ts a []).1 =
        Except.ok (create_file_path ncfg.root_dir (some ".npy") ts filename
          nametag, ts, a.shape) := by
  rcases hsh : a.shape with _ | ⟨x, _ | ⟨y, _ | ⟨z, rest⟩⟩⟩
  · rw [NDArray.ndim, hsh] at h; simp at h
  · rw [NDArray.ndim, hsh] at h; simp at h
  · rw [NDArray.ndim, hsh] at h; simp at h
  · refine ⟨?_, ?_, ?_⟩
    · simp [text_save_data, text_new_data_file, text_append_data_file,
        Option.orElse, isfile_writeNew_self, hsh]
    · simp [text_save_data, text_new_data_file, text_append_data_file,
        Option.orElse, isfile_writeNew_self, hsh]
    · simp [npy_save_data, List.contains, List.elem, hsh]

/-- C4 witness. -/
theorem c4_highdim_behavior_witness :
    (text_save_data ⟨"r", some ".dat", false, ColHeaders.cnone, none, "\t"⟩
        ⟨[]⟩ [] [] none none none ts0 ⟨[1, 1, 1, 1]⟩).1 =
      Except.error PyError.valueError ∧
    ((text_save_data ⟨"r", some ".dat", false, ColHeaders.cnone, none, "\t"⟩
        ⟨[]⟩ [] [] none none none ts0 ⟨[1, 1, 1, 1]⟩).2).isfile
      (create_file_path "r" (some ".dat") ts0 none none) = true ∧
    (npy_save_data ⟨"r", false, ColHeaders.cnone⟩ ⟨[]⟩ [] [] none none none
        ts0 ⟨[1, 1, 1, 1]⟩ []).1 =
      Except.ok (create_file_path "r" (some ".npy") ts0 none none, ts0,
        [1, 1, 1, 1]) :=
  c4_highdim_behavior ⟨"r", some ".dat", false, ColHeaders.cnone, none, "\t"⟩
    ⟨"r", false, ColHeaders.cnone⟩ ⟨[]⟩ ⟨[]⟩ [] [] none none none ts0
    ⟨[1, 1, 1, 1]⟩ (by decide)

/-! ## C8: primary file plus sidecar -/

/-- C8 counterexample: when the sidecar write fails after the primary
`.npy` file has been written, the call propagates the raw `OSError` — it
does not signal the `PartialWriteFailure` the claim demands — and the
primary file is left behind while the sidecar is missing. -/
theorem c8_sidecar_failure_untyped :
    (npy_save_data ⟨"root", true, ColHeaders.cnone⟩ ⟨[]⟩ [] [] none none
        (some "run") ts0 ⟨[2, 2]⟩
        ["root/20210130-1130-59_run_metadata.txt"]).1 =
      Except.error PyError.osError ∧
    (npy_save_data ⟨"root", true, ColHeaders.cnone⟩ ⟨[]⟩ [] [] none none
        (some "run") ts0 ⟨[2, 2]⟩
        ["root/20210130-1130-59_run_metadata.txt"]).1 ≠
      Except.error PyError.incompleteWrite ∧
    ((npy_save_data ⟨"root", true, ColHeaders.cnone⟩ ⟨[]⟩ [] [] none none
        (some "run") ts0 ⟨[2, 2]⟩
        ["root/20210130-1130-59_run_metadata.txt"]).2).readF
      "root/20210130-1130-59_run.npy" = some (npyBlob ⟨[2, 2]⟩) ∧
    ((npy_save_data ⟨"root", true, ColHeaders.cnone⟩ ⟨[]⟩ [] [] none none
        (some "run") ts0 ⟨[2, 2]⟩
        ["root/20210130-1130-59_run_metadata.txt"]).2).isfile
      "root/20210130-1130-59_run_metadata.txt" = false := by
  decide

/-- C8 amended: on success the binary backend writes exactly two files —
the primary `.npy` file and the sidecar `<base>_metadata.txt` holding the
rendered header, every other path untouched; if the sidecar write fails
after the primary write succeeded, the raw `OSError` propagates untyped
(no `PartialWriteFailure` is signalled) and the primary file remains on
disk. -/
theorem c8_two_files_or_raw_error (cfg : NpyCfg) (fs : PyFS)
    (gm lm : List (String × MetaVal)) (notes : Option String)
    (filename nametag : Option String) (ts : Datetime) (a : NDArray)
    (failing : List String) :
    (failing = [] →
      (npy_save_data cfg fs gm lm notes filename nametag ts a failing).1 =
        Except.ok (create_file_path cfg.root_dir (some ".npy") ts filename
          nametag, ts, a.shape) ∧
      ((npy_save_data cfg fs gm lm notes filename nametag ts a
          failing).2).readF
        (create_file_path cfg.root_dir (some ".npy") ts filename nametag) =
          some (npyBlob a) ∧
      ((npy_save_data cfg fs gm lm notes filename nametag ts a
          failing).2).readF
        (rsplitDotHead (create_file_path cfg.root_dir (some ".npy") ts
            filename nametag) ++ "_metadata.txt") =
          some (npy_create_header cfg gm lm notes ts) ∧
      ∀ q, q ≠ create_file_path cfg.root_dir (some ".npy") ts filename
          nametag →
        q ≠ rsplitDotHead (create_file_path cfg.root_dir (some ".npy") ts
            filename nametag) ++ "_metadata.txt" →
        ((npy_save_data cfg fs gm lm notes filename nametag ts a
            failing).2).readF q = fs.readF q) ∧
    (failing.contains (create_file_path cfg.root_dir (some ".npy") ts
        filename nametag) = false →
      failing.contains (rsplitDotHead (create_file_path cfg.root_dir
        (some ".npy") ts filename nametag) ++ "_metadata.txt") = true →
      (npy_save_data cfg fs gm lm notes filename nametag ts a failing).1 =
        Except.error PyError.osError ∧
      (npy_save_data cfg fs gm lm notes filename nametag ts a failing).1 ≠
        Except.error PyError.incompleteWrite ∧
      ((npy_save_data cfg fs gm lm notes filename nametag ts a
          failing).2).readF
        (create_file_path cfg.root_dir (some ".npy") ts filename nametag) =
          some (npyBlob a) ∧
      ∀ q, q ≠ create_file_path cfg.root_dir (some ".npy") ts filename
          nametag →
        ((npy_save_data cfg fs gm lm notes filename nametag ts a
            failing).2).readF q = fs.readF q) := by
  constructor
  · intro hf
    subst hf
    refine ⟨?_, ?_, ?_, ?_⟩
    · simp [npy_save_data, List.contains, List.elem]
    · simp [npy_save_data, List.contains, List.elem, readF_writeNew,
        (npy_path_ne_side cfg.root_dir ts filename nametag)]
    · simp [npy_save_data, List.contains, List.elem, readF_writeNew]
    · intro q hq1 hq2
      simp [npy_save_data, List.contains, List.elem, readF_writeNew, hq1, hq2]
  · intro hp hside
    have hp2 : create_file_path cfg.root_dir (some ".npy") ts filename
        nametag ∉ failing := by simpa using hp
    have hside2 : rsplitDotHead (create_file_path cfg.root_dir (some ".npy")
        ts filename nametag) ++ "_metadata.txt" ∈ failing := by simpa using hside
    refine ⟨?_, ?_, ?_, ?_⟩
    · simp [npy_save_data, hp2, hside2]
    · simp [npy_save_data, hp2, hside2]
    · simp [npy_save_data, hp2, hside2, readF_writeNew]
    · intro q hq1
      simp [npy_save_data, hp2, hside2, readF_writeNew, hq1]

/-- C8 witness. -/
theorem c8_two_files_or_raw_error_witness :
    (npy_save_data ⟨"r", false, ColHeaders.cnone⟩ ⟨[]⟩ [] [] none none none
        ts0 ⟨[3]⟩ []).1 =
      Except.ok (create_file_path "r" (some ".npy") ts0 none none, ts0,
        [3]) ∧
    ((npy_save_data ⟨"r", false, ColHeaders.cnone⟩ ⟨[]⟩ [] [] none none none
        ts0 ⟨[3]⟩ []).2).readF
      (rsplitDotHead (create_file_path "r" (some ".npy") ts0 none none) ++
        "_metadata.txt") =
      some (npy_create_header ⟨"r", false, ColHeaders.cnone⟩ [] [] none
        ts0) ∧
    (npy_save_data ⟨"r", false, ColHeaders.cnone⟩ ⟨[]⟩ [] [] none none none
        ts0 ⟨[3]⟩ ["r/20210130-1130-59_metadata.txt"]).1 =
      Except.error PyError.osError :=
  ⟨((c8_two_files_or_raw_error ⟨"r", false, ColHeaders.cnone⟩ ⟨[]⟩ [] [] none
      none none ts0 ⟨[3]⟩ []).1 rfl).1,
   ((c8_two_files_or_raw_error ⟨"r", false, ColHeaders.cnone⟩ ⟨[]⟩ [] [] none
      none none ts0 ⟨[3]⟩ []).1 rfl).2.2.1,
   ((c8_two_files_or_raw_error ⟨"r", false, ColHeaders.cnone⟩ ⟨[]⟩ [] [] none
      none none ts0 ⟨[3]⟩ ["r/20210130-1130-59_metadata.txt"]).2 (by decide)
      (by decide)).1⟩

/-- C9 counterexample: the float value one is rendered by the header
metadata loop as `1.000000000000000000e+00`, which has 19 significant
digits, not the 18 the claim states. -/
theorem c9_float_has_19_digits :
    metaLine "v" (MetaVal.mvFloat ⟨false, [1], 0⟩) =
      "v: 1.000000000000000000e+00" ∧
    mantissaDigitCount (renderVal (MetaVal.mvFloat ⟨false, [1], 0⟩)) = 19 ∧
    mantissaDigitCount (renderVal (MetaVal.mvFloat ⟨false, [1], 0⟩)) ≠ 18 := by
  decide

/-! ## Heap lemmas -/

/-- A successful lookup comes from a list member. -/
theorem lookupNat_mem : ∀ (l : List (Nat × PyObj)) (a : Nat) (o : PyObj),
    l.lookup a = some o → (a, o) ∈ l := by
  intro l
  induction l with
  | nil => intro a o h; simp [List.lookup] at h
  | cons e l ih =>
    intro a o h
    obtain ⟨k, v⟩ := e
    by_cases hk : a = k
    · subst hk
      simp [List.lookup] at h
      subst h
      exact List.mem_cons_self _ _
    · have hb : (a == k) = false := by simp [hk]
      simp [List.lookup, hb] at h
      exact List.mem_cons_of_mem _ (ih a o h)

/-- In a well-formed heap, every readable address is below the
allocation counter. -/
theorem read_lt_next (m : PyMem) (hwf : m.wfB = true) (a : Nat) (o : PyObj)
    (h : m.read a = some o) : a < m.next := by
  have hm := lookupNat_mem m.cells a o h
  rw [PyMem.wfB, List.all_eq_true] at hwf
  simpa using hwf (a, o) hm

/-- Reading after an allocation. -/
theorem read_alloc (m : PyMem) (o : PyObj) (a : Nat) :
    ((m.alloc o).2).read a = if a = m.next then some o else m.read a := by
  by_cases h : a = m.next
  · subst h; simp [PyMem.alloc, PyMem.read, List.lookup]
  · have hb : (a == m.next) = false := by simp [h]
    simp [PyMem.alloc, PyMem.read, List.lookup, hb, h]

/-- `setCell` at the matching address. -/
theorem setCell_eq (a : Nat) (o : PyObj) (k : Nat) (v : PyObj) (h : k = a) :
    setCell a o (k, v) = (a, o) := by
  simp [setCell, h]

/-- `setCell` at another address. -/
theorem setCell_ne (a : Nat) (o : PyObj) (k : Nat) (v : PyObj) (h : k ≠ a) :
    setCell a o (k, v) = (k, v) := by
  simp [setCell, h]

/-- Writing one address does not change reads of another. -/
theorem read_write_ne (m : PyMem) (a b : Nat) (o : PyObj) (h : b ≠ a) :
    (m.write a o).read b = m.read b := by
  obtain ⟨nx, cells⟩ := m
  simp only [PyMem.write, PyMem.read]
  induction cells with
  | nil => rfl
  | cons e l ih =>
    obtain ⟨k, v⟩ := e
    rw [List.map_cons]
    by_cases hk : k = a
    · rw [setCell_eq a o k v hk]
      have hb1 : (b == a) = false := by simp [h]
      have hb2 : (b == k) = false := by simp [hk ▸ h]
      simp [List.lookup, hb1, hb2, ih]
    · rw [setCell_ne a o k v hk]
      by_cases hbk : b = k
      · subst hbk; simp [List.lookup]
      · have hb : (b == k) = false := by simp [hbk]
        simp [List.lookup, hb, ih]

/-- Writing an existing address makes it read the new object. -/
theorem read_write_self (m : PyMem) (a : Nat) (o u : PyObj)
    (h : m.read a = some u) : (m.write a o).read a = some o := by
  obtain ⟨nx, cells⟩ := m
  simp only [PyMem.write, PyMem.read] at h ⊢
  induction cells with
  | nil => simp [List.lookup] at h
  | cons e l ih =>
    obtain ⟨k, v⟩ := e
    rw [List.map_cons]
    by_cases hk : k = a
    · rw [setCell_eq a o k v hk]
      simp [List.lookup]
    · rw [setCell_ne a o k v hk]
      have hb : (a == k) = false := by simp [Ne.symm hk]
      simp only [List.lookup, hb] at h ⊢
      exact ih h

/-- Allocation preserves heap well-formedness. -/
theorem wf_alloc (m : PyMem) (o : PyObj) (hwf : m.wfB = true) :
    ((m.alloc o).2).wfB = true := by
  rw [PyMem.wfB, List.all_eq_true] at hwf ⊢
  intro p hp
  rcases List.mem_cons.mp hp with h | h
  · subst h; simp [PyMem.alloc]
  · have := hwf p h
    simp only [decide_eq_true_eq] at this ⊢
    show p.1 < m.next + 1
    omega

/-- Heap extension is reflexive. -/
theorem extM_refl (m : PyMem) : extM m m :=
  ⟨le_refl _, fun _ _ => rfl⟩

/-- Heap extension is transitive. -/
theorem extM_trans {m1 m2 m3 : PyMem} (h1 : extM m1 m2) (h2 : extM m2 m3) :
    extM m1 m3 :=
  ⟨le_trans h1.1 h2.1, fun a ha => by
    rw [h2.2 a (lt_of_lt_of_le ha h1.1), h1.2 a ha]⟩

/-- Allocation extends the heap. -/
theorem extM_alloc (m : PyMem) (o : PyObj) : extM m (m.alloc o).2 := by
  refine ⟨by simp [PyMem.alloc], ?_⟩
  intro a ha
  rw [read_alloc, if_neg (by omega)]

/-- Deep-copying one value extends the heap. -/
theorem deepcopyVal_ext (m : PyMem) (v : RVal) :
    extM m (deepcopyVal m v).2 := by
  cases v with
  | rint n => exact extM_refl m
  | rstr s => exact extM_refl m
  | rref a =>
    simp only [deepcopyVal]
    cases h : m.read a with
    | none => exact extM_refl m
    | some o =>
      cases o with
      | plist xs => exact extM_alloc m _
      | pdict d => exact extM_refl m

/-- Deep-copying one value preserves heap well-formedness. -/
theorem deepcopyVal_wf (m : PyMem) (v : RVal) (hwf : m.wfB = true) :
    ((deepcopyVal m v).2).wfB = true := by
  cases v with
  | rint n => exact hwf
  | rstr s => exact hwf
  | rref a =>
    simp only [deepcopyVal]
    cases h : m.read a with
    | none => exact hwf
    | some o =>
      cases o with
      | plist xs => exact wf_alloc m _ hwf
      | pdict d => exact hwf

/-- The deep copy of a value materializes to the same observation. -/
theorem deepcopyVal_mat (m : PyMem) (v : RVal) :
    matVal (deepcopyVal m v).2 (deepcopyVal m v).1 = matVal m v := by
  cases v with
  | rint n => rfl
  | rstr s => rfl
  | rref a =>
    simp only [deepcopyVal]
    cases h : m.read a with
    | none => simp [matVal, h]
    | some o =>
      cases o with
      | plist xs =>
        have h2 : List.lookup a m.cells = some (PyObj.plist xs) := h
        simp [matVal, PyMem.alloc, PyMem.read, List.lookup, h2]
      | pdict d => simp [matVal, h]

/-- The deep copy of a valid value is valid in the extended heap. -/
theorem deepcopyVal_valOk (m : PyMem) (v : RVal)
    (hok : valOkB m v = true) :
    valOkB (deepcopyVal m v).2 (deepcopyVal m v).1 = true := by
  cases v with
  | rint n => rfl
  | rstr s => rfl
  | rref a =>
    simp only [deepcopyVal]
    cases h : m.read a with
    | none => exact hok
    | some o =>
      cases o with
      | plist xs => simp [valOkB, PyMem.alloc]
      | pdict d => exact hok

/-- Valid values materialize the same in an extended heap. -/
theorem matVal_ext {m m2 : PyMem} (h : extM m m2) (v : RVal)
    (hok : valOkB m v = true) : matVal m2 v = matVal m v := by
  cases v with
  | rint n => rfl
  | rstr s => rfl
  | rref a =>
    have ha : a < m.next := by simpa [valOkB] using hok
    simp [matVal, h.2 a ha]

/-- Validity is preserved by heap extension. -/
theorem valOkB_ext {m m2 : PyMem} (h : extM m m2) (v : RVal)
    (hok : valOkB m v = true) : valOkB m2 v = true := by
  cases v with
  | rint n => rfl
  | rstr s => rfl
  | rref a =>
    have ha : a < m.next := by simpa [valOkB] using hok
    have hle : m.next ≤ m2.next := h.1
    simp only [valOkB, decide_eq_true_eq]
    omega

/-- Entry-list validity is preserved by heap extension. -/
theorem valsOkB_ext {m m2 : PyMem} (h : extM m m2)
    (es : List (RKey × RVal)) (hok : valsOkB m es = true) :
    valsOkB m2 es = true := by
  rw [valsOkB, List.all_eq_true] at hok ⊢
  exact fun p hp => valOkB_ext h p.2 (hok p hp)

/-- Valid entries materialize the same in an extended heap. -/
theorem matEntries_ext {m m2 : PyMem} (h : extM m m2)
    (es : List (RKey × RVal)) (hok : valsOkB m es = true) :
    matEntries m2 es = matEntries m es := by
  rw [valsOkB, List.all_eq_true] at hok
  unfold matEntries
  apply List.map_congr_left
  intro p hp
  rw [matVal_ext h p.2 (hok p hp)]

/-- Overwriting a dict cell does not change any materialized value. -/
theorem matVal_write_dict (m : PyMem) (r : Nat)
    (d0 d1 : List (RKey × RVal)) (hr : m.read r = some (PyObj.pdict d0))
    (v : RVal) : matVal (m.write r (PyObj.pdict d1)) v = matVal m v := by
  cases v with
  | rint n => rfl
  | rstr s => rfl
  | rref a =>
    by_cases ha : a = r
    · subst ha
      simp [matVal, read_write_self m a _ _ hr, hr]
    · simp [matVal, read_write_ne m r a _ ha]

/-- Deep-copying entries extends the heap. -/
theorem deepcopyEntries_ext :
    ∀ (es : List (RKey × RVal)) (m : PyMem),
      extM m (deepcopyEntries m es).2 := by
  intro es
  induction es with
  | nil => intro m; exact extM_refl m
  | cons p rest ih =>
    intro m
    exact extM_trans (deepcopyVal_ext m p.2) (ih (deepcopyVal m p.2).2)

/-- Deep-copying entries preserves heap well-formedness. -/
theorem deepcopyEntries_wf :
    ∀ (es : List (RKey × RVal)) (m : PyMem), m.wfB = true →
      ((deepcopyEntries m es).2).wfB = true := by
  intro es
  induction es with
  | nil => intro m h; exact h
  | cons p rest ih =>
    intro m h
    exact ih (deepcopyVal m p.2).2 (deepcopyVal_wf m p.2 h)

/-- Deep-copying entries keeps keys and their order. -/
theorem deepcopyEntries_keys :
    ∀ (es : List (RKey × RVal)) (m : PyMem),
      ((deepcopyEntries m es).1).map Prod.fst = es.map Prod.fst := by
  intro es
  induction es with
  | nil => intro m; rfl
  | cons p rest ih =>
    intro m
    simp [deepcopyEntries, ih]

/-- Deep-copied entries stay valid. -/
theorem deepcopyEntries_valsOk :
    ∀ (es : List (RKey × RVal)) (m : PyMem), valsOkB m es = true →
      valsOkB (deepcopyEntries m es).2 (deepcopyEntries m es).1 = true := by
  intro es
  induction es with
  | nil => intro m _; rfl
  | cons p rest ih =>
    intro m hok
    rw [valsOkB, List.all_cons, Bool.and_eq_true] at hok
    simp only [deepcopyEntries, valsOkB, List.all_cons, Bool.and_eq_true]
    constructor
    · exact valOkB_ext (deepcopyEntries_ext rest (deepcopyVal m p.2).2) _
        (deepcopyVal_valOk m p.2 hok.1)
    · have := ih (deepcopyVal m p.2).2
        (valsOkB_ext (deepcopyVal_ext m p.2) rest hok.2)
      rw [valsOkB, List.all_eq_true] at this
      rw [List.all_eq_true]
      exact this

/-- Deep-copied entries materialize exactly like the originals. -/
theorem deepcopyEntries_mat :
    ∀ (es : List (RKey × RVal)) (m : PyMem), valsOkB m es = true →
      matEntries (deepcopyEntries m es).2 (deepcopyEntries m es).1 =
        matEntries m es := by
  intro es
  induction es with
  | nil => intro m _; rfl
  | cons p rest ih =>
    intro m hok
    rw [valsOkB, List.all_cons, Bool.and_eq_true] at hok
    simp only [deepcopyEntries, matEntries, List.map_cons, List.cons.injEq]
    constructor
    · have h1 : matVal (deepcopyEntries (deepcopyVal m p.2).2 rest).2
          (deepcopyVal m p.2).1 =
          matVal (deepcopyVal m p.2).2 (deepcopyVal m p.2).1 :=
        matVal_ext (deepcopyEntries_ext rest (deepcopyVal m p.2).2) _
          (deepcopyVal_valOk m p.2 hok.1)
      rw [h1, deepcopyVal_mat]
    · have h2 := ih (deepcopyVal m p.2).2
        (valsOkB_ext (deepcopyVal_ext m p.2) rest hok.2)
      have h3 := matEntries_ext (deepcopyVal_ext m p.2) rest hok.2
      rw [matEntries, matEntries] at h2
      rw [matEntries, matEntries] at h3
      rw [h2, h3]

/-! ## Dict lemmas -/

/-- Lookup in an appended dict when the left part misses. -/
theorem dlookup_append_of_none (d e : List (RKey × RVal)) (k : RKey)
    (h : dlookup d k = none) : dlookup (d ++ e) k = dlookup e k := by
  induction d with
  | nil => rfl
  | cons p rest ih =>
    obtain ⟨k1, v1⟩ := p
    by_cases hk : k = k1
    · subst hk
      simp [dlookup, List.lookup] at h
    · have hb : (k == k1) = false := by simp [hk]
      simp only [dlookup, List.lookup, hb, List.cons_append] at h ⊢
      exact ih h

/-- `setEntry` at the matching key. -/
theorem setEntry_eq (k : RKey) (v : RVal) (k1 : RKey) (v1 : RVal)
    (h : k1 = k) : setEntry k v (k1, v1) = (k, v) := by
  simp [setEntry, h]

/-- `setEntry` at another key. -/
theorem setEntry_ne (k : RKey) (v : RVal) (k1 : RKey) (v1 : RVal)
    (h : k1 ≠ k) : setEntry k v (k1, v1) = (k1, v1) := by
  simp [setEntry, h]

/-- After `d[k] = v`, looking up `k` yields `v`. -/
theorem dlookup_dsetItem_self (d : List (RKey × RVal)) (k : RKey)
    (v : RVal) : dlookup (dsetItem d k v) k = some v := by
  by_cases hp : (dlookup d k).isSome
  · rw [dsetItem, if_pos hp]
    induction d with
    | nil => simp [dlookup, List.lookup] at hp
    | cons p rest ih =>
      obtain ⟨k1, v1⟩ := p
      rw [List.map_cons]
      by_cases hk : k1 = k
      · rw [setEntry_eq k v k1 v1 hk]
        simp [dlookup, List.lookup]
      · rw [setEntry_ne k v k1 v1 hk]
        have hb : (k == k1) = false := by simp [Ne.symm hk]
        simp only [dlookup, List.lookup, hb] at hp ⊢
        exact ih hp
  · rw [dsetItem, if_neg hp]
    have hnone : dlookup d k = none := by
      cases hd : dlookup d k
      · rfl
      · rw [hd] at hp; simp at hp
    rw [dlookup_append_of_none d _ k hnone]
    simp [dlookup, List.lookup]

/-- `d[k] = v` does not change other keys. -/
theorem dlookup_dsetItem_ne (d : List (RKey × RVal)) (k k2 : RKey)
    (v : RVal) (h : k2 ≠ k) :
    dlookup (dsetItem d k v) k2 = dlookup d k2 := by
  by_cases hp : (dlookup d k).isSome
  · rw [dsetItem, if_pos hp]
    clear hp
    induction d with
    | nil => rfl
    | cons p rest ih =>
      obtain ⟨k1, v1⟩ := p
      rw [List.map_cons]
      by_cases hk : k1 = k
      · rw [setEntry_eq k v k1 v1 hk]
        have hb1 : (k2 == k) = false := by simp [h]
        have hb2 : (k2 == k1) = false := by simp [hk ▸ h]
        simp only [dlookup, List.lookup, hb1, hb2]
        exact ih
      · rw [setEntry_ne k v k1 v1 hk]
        by_cases hk2 : k2 = k1
        · subst hk2; simp [dlookup, List.lookup]
        · have hb : (k2 == k1) = false := by simp [hk2]
          simp only [dlookup, List.lookup, hb]
          exact ih
  · rw [dsetItem, if_neg hp]
    induction d with
    | nil =>
      have hb : (k2 == k) = false := by simp [h]
      simp [dlookup, List.lookup, hb]
    | cons p rest ih =>
      obtain ⟨k1, v1⟩ := p
      have hp2 : ¬(dlookup rest k).isSome := by
        intro hs
        apply hp
        by_cases hk : k = k1
        · simp [dlookup, List.lookup, hk]
        · have hb : (k == k1) = false := by simp [hk]
          simpa [dlookup, List.lookup, hb] using hs
      by_cases hk2 : k2 = k1
      · subst hk2; simp [dlookup, List.lookup]
      · have hb : (k2 == k1) = false := by simp [hk2]
        simp only [List.cons_append, dlookup, List.lookup, hb]
        exact ih hp2

/-- `d.update(md)` does not change keys absent from `md`. -/
theorem dlookup_dupdate_not_mem :
    ∀ (md d : List (RKey × RVal)) (k : RKey),
      k ∉ md.map Prod.fst → dlookup (dupdate d md) k = dlookup d k := by
  intro md
  induction md with
  | nil => intro d k _; rfl
  | cons p rest ih =>
    intro d k hk
    rw [List.map_cons] at hk
    have hk1 : k ≠ p.1 := by
      intro hcon
      apply hk
      rw [hcon]
      exact List.mem_cons_self _ _
    have hk2 : k ∉ rest.map Prod.fst := by
      intro hcon
      exact hk (List.mem_cons_of_mem _ hcon)
    show dlookup (dupdate (dsetItem d p.1 p.2) rest) k = dlookup d k
    rw [ih (dsetItem d p.1 p.2) k hk2, dlookup_dsetItem_ne d p.1 k p.2 hk1]

/-- `d.update(md)` maps every key of `md` to its (unique) value. -/
theorem dlookup_dupdate_mem :
    ∀ (md d : List (RKey × RVal)) (k : RKey) (v : RVal),
      (md.map Prod.fst).Nodup → (k, v) ∈ md →
      dlookup (dupdate d md) k = some v := by
  intro md
  induction md with
  | nil => intro d k v _ hm; simp at hm
  | cons p rest ih =>
    intro d k v hnd hm
    rw [List.map_cons, List.nodup_cons] at hnd
    rcases List.mem_cons.mp hm with h | h
    · subst h
      show dlookup (dupdate (dsetItem d k v) rest) k = some v
      rw [dlookup_dupdate_not_mem rest _ k hnd.1,
        dlookup_dsetItem_self]
    · show dlookup (dupdate (dsetItem d p.1 p.2) rest) k = some v
      exact ih _ k v hnd.2 h

/-! ## C1: shallow copy of the global metadata registry -/

/-- C1 counterexample: the registry holds the key `k` bound to a mutable
list; `get_global_metadata` hands back a copy whose value still
references the same list object, so appending to that list through the
returned mapping changes both the live registry observation and the
result of a later `get_global_metadata`. -/
theorem c1_shared_mutable_values :
    ((get_global_metadata ⟨2, [(0, PyObj.plist [1]),
        (1, PyObj.pdict [(RKey.kstr "k", RVal.rref 0)])]⟩ 1).2).read
      (get_global_metadata ⟨2, [(0, PyObj.plist [1]),
        (1, PyObj.pdict [(RKey.kstr "k", RVal.rref 0)])]⟩ 1).1 =
      some (PyObj.pdict [(RKey.kstr "k", RVal.rref 0)]) ∧
    matDictAt (list_append (get_global_metadata ⟨2, [(0, PyObj.plist [1]),
        (1, PyObj.pdict [(RKey.kstr "k", RVal.rref 0)])]⟩ 1).2 0 2) 1 =
      [(RKey.kstr "k", MatV.mlist [1, 2])] ∧
    matDictAt ⟨2, [(0, PyObj.plist [1]),
        (1, PyObj.pdict [(RKey.kstr "k", RVal.rref 0)])]⟩ 1 =
      [(RKey.kstr "k", MatV.mlist [1])] ∧
    matDictAt (get_global_metadata (list_append (get_global_metadata
        ⟨2, [(0, PyObj.plist [1]),
        (1, PyObj.pdict [(RKey.kstr "k", RVal.rref 0)])]⟩ 1).2 0 2) 1).2
      (get_global_metadata (list_append (get_global_metadata
        ⟨2, [(0, PyObj.plist [1]),
        (1, PyObj.pdict [(RKey.kstr "k", RVal.rref 0)])]⟩ 1).2 0 2) 1).1 ≠
      matDictAt ⟨2, [(0, PyObj.plist [1]),
        (1, PyObj.pdict [(RKey.kstr "k", RVal.rref 0)])]⟩ 1 := by
  decide

/-- C1 amended: `get_global_metadata` returns a shallow copy: a fresh
dict object distinct from the registry whose association list equals the
registry contents; adding or replacing a key on the copy leaves the live
registry and the result of a later `get_global_metadata` unchanged —
but, as the counterexample shows, mutable values are shared, so mutation
inside a contained value is visible through the registry. -/
theorem c1_shallow_copy (m : PyMem) (reg : Nat) (d : List (RKey × RVal))
    (hwf : m.wfB = true) (hreg : m.read reg = some (PyObj.pdict d))
    (hvd : valsOkB m d = true) (k : RKey) (v : RVal) :
    ((get_global_metadata m reg).2).read (get_global_metadata m reg).1 =
      some (PyObj.pdict d) ∧
    (get_global_metadata m reg).1 ≠ reg ∧
    (dict_setitem (get_global_metadata m reg).2
      (get_global_metadata m reg).1 k v).read reg =
      some (PyObj.pdict d) ∧
    matDictAt (get_global_metadata (dict_setitem (get_global_metadata m
        reg).2 (get_global_metadata m reg).1 k v) reg).2
      (get_global_metadata (dict_setitem (get_global_metadata m reg).2
        (get_global_metadata m reg).1 k v) reg).1 = matDictAt m reg := by
  have hlt : reg < m.next := read_lt_next m hwf reg _ hreg
  simp only [get_global_metadata, hreg]
  have hc1 : ((m.alloc (PyObj.pdict d)).2).read (m.alloc (PyObj.pdict d)).1 =
      some (PyObj.pdict d) := by
    rw [read_alloc]
    simp [PyMem.alloc]
  have hne : (m.alloc (PyObj.pdict d)).1 ≠ reg := by
    simp only [PyMem.alloc]
    omega
  refine ⟨hc1, hne, ?_, ?_⟩
  · rw [dict_setitem, hc1, read_write_ne _ _ _ _ (Ne.symm hne), read_alloc,
      if_neg (by omega)]
    exact hreg
  · set m1 := (m.alloc (PyObj.pdict d)).2 with hm1
    set c := (m.alloc (PyObj.pdict d)).1 with hc
    set m2 := dict_setitem m1 c k v with hm2
    have hregm2 : m2.read reg = some (PyObj.pdict d) := by
      rw [hm2, dict_setitem, hc1, read_write_ne _ _ _ _ (Ne.symm hne), hm1,
        read_alloc, if_neg (by omega)]
      exact hreg
    simp only [get_global_metadata, hregm2]
    have hext : extM m (m2.alloc (PyObj.pdict d)).2 := by
      refine @extM_trans _ m2 _ ⟨?_, ?_⟩ (extM_alloc m2 _)
      · rw [hm2, dict_setitem, hc1]
        show m.next ≤ ((m1.write c (PyObj.pdict (dsetItem d k v)))).next
        simp [PyMem.write, hm1, PyMem.alloc]
      · intro a ha
        rw [hm2, dict_setitem, hc1, read_write_ne _ _ _ _ (by
          rw [hc]; simp only [PyMem.alloc]; omega), hm1, read_alloc,
          if_neg (by omega)]
    have hc2 : ((m2.alloc (PyObj.pdict d)).2).read
        (m2.alloc (PyObj.pdict d)).1 = some (PyObj.pdict d) := by
      rw [read_alloc]
      simp [PyMem.alloc]
    rw [matDictAt, hc2, matDictAt, hreg]
    have := matEntries_ext hext d hvd
    rw [matEntries, matEntries] at this
    exact this

/-- C1 witness. -/
theorem c1_shallow_copy_witness :
    ((get_global_metadata ⟨2, [(0, PyObj.plist [1]),
        (1, PyObj.pdict [(RKey.kstr "a", RVal.rint 7)])]⟩ 1).2).read
      (get_global_metadata ⟨2, [(0, PyObj.plist [1]),
        (1, PyObj.pdict [(RKey.kstr "a", RVal.rint 7)])]⟩ 1).1 =
      some (PyObj.pdict [(RKey.kstr "a", RVal.rint 7)]) ∧
    (get_global_metadata ⟨2, [(0, PyObj.plist [1]),
        (1, PyObj.pdict [(RKey.kstr "a", RVal.rint 7)])]⟩ 1).1 ≠ 1 ∧
    (dict_setitem (get_global_metadata ⟨2, [(0, PyObj.plist [1]),
        (1, PyObj.pdict [(RKey.kstr "a", RVal.rint 7)])]⟩ 1).2
      (get_global_metadata ⟨2, [(0, PyObj.plist [1]),
        (1, PyObj.pdict [(RKey.kstr "a", RVal.rint 7)])]⟩ 1).1
      (RKey.kstr "b") (RVal.rint 9)).read 1 =
      some (PyObj.pdict [(RKey.kstr "a", RVal.rint 7)]) ∧
    matDictAt (get_global_metadata (dict_setitem (get_global_metadata
        ⟨2, [(0, PyObj.plist [1]),
        (1, PyObj.pdict [(RKey.kstr "a", RVal.rint 7)])]⟩ 1).2
      (get_global_metadata ⟨2, [(0, PyObj.plist [1]),
        (1, PyObj.pdict [(RKey.kstr "a", RVal.rint 7)])]⟩ 1).1
      (RKey.kstr "b") (RVal.rint 9)) 1).2
      (get_global_metadata (dict_setitem (get_global_metadata
        ⟨2, [(0, PyObj.plist [1]),
        (1, PyObj.pdict [(RKey.kstr "a", RVal.rint 7)])]⟩ 1).2
      (get_global_metadata ⟨2, [(0, PyObj.plist [1]),
        (1, PyObj.pdict [(RKey.kstr "a", RVal.rint 7)])]⟩ 1).1
      (RKey.kstr "b") (RVal.rint 9)) 1).1 =
      matDictAt ⟨2, [(0, PyObj.plist [1]),
        (1, PyObj.pdict [(RKey.kstr "a", RVal.rint 7)])]⟩ 1 :=
  c1_shallow_copy ⟨2, [(0, PyObj.plist [1]),
      (1, PyObj.pdict [(RKey.kstr "a", RVal.rint 7)])]⟩ 1
    [(RKey.kstr "a", RVal.rint 7)] (by decide) (by decide) (by decide)
    (RKey.kstr "b") (RVal.rint 9)

/-! ## C2: atomic duplicate-key handling of add_global_metadata -/

/-- A predicate on keys can be tested over the entries or over the key
list. -/
theorem any_over_fst (l : List (RKey × RVal)) (g : RKey → Bool) :
    (l.any fun p => g p.1) = (l.map Prod.fst).any g := by
  induction l with
  | nil => rfl
  | cons p rest ih => simp [List.any_cons, ih]

/-- C2: with `overwrite=False`, `add_global_metadata` on a dict whose
keys intersect the registry raises `KeyError` and leaves the registry
observation unchanged (all-or-nothing); when no entry key is present
yet, the call succeeds and every entry is applied (up to the deep copy,
which preserves the observed values). -/
theorem c2_add_no_overwrite_atomic (m : PyMem) (reg : Nat)
    (d es : List (RKey × RVal))
    (hwf : m.wfB = true) (hreg : m.read reg = some (PyObj.pdict d))
    (hvd : valsOkB m d = true) (hves : valsOkB m es = true)
    (hnd : (es.map Prod.fst).Nodup) :
    (hasDupB d es = true →
      (add_global_metadata m reg (NameArg.ndict es) false).1 =
        Except.error PyError.keyError ∧
      matDictAt (add_global_metadata m reg (NameArg.ndict es) false).2 reg =
        matDictAt m reg) ∧
    (hasDupB d es = false →
      (add_global_metadata m reg (NameArg.ndict es) false).1 =
        Except.ok () ∧
      ∀ p ∈ es, ∃ w, dlookup (dictAt (add_global_metadata m reg
          (NameArg.ndict es) false).2 reg) p.1 = some w ∧
        matVal (add_global_metadata m reg (NameArg.ndict es) false).2 w =
          matVal m p.2) := by
  have hlt : reg < m.next := read_lt_next m hwf reg _ hreg
  have hext : extM m (deepcopyEntries m es).2 := deepcopyEntries_ext es m
  have hreg2 : ((deepcopyEntries m es).2).read reg =
      some (PyObj.pdict d) := by
    rw [hext.2 reg hlt]; exact hreg
  have hkeys := deepcopyEntries_keys es m
  have hdup : ((deepcopyEntries m es).1).any
      (fun p => (dlookup d p.1).isSome) = hasDupB d es := by
    have e1 := any_over_fst (deepcopyEntries m es).1
      (fun k => (dlookup d k).isSome)
    have e2 := any_over_fst es (fun k => (dlookup d k).isSome)
    exact e1.trans ((congrArg
      (fun t => t.any (fun k => (dlookup d k).isSome)) hkeys).trans e2.symm)
  constructor
  · intro hD
    simp only [add_global_metadata, mergeLocked, hreg2, Bool.not_false,
      Bool.true_and, hdup, hD, if_true]
    refine ⟨trivial, ?_⟩
    simp only [matDictAt, hreg2, hreg]
    have := matEntries_ext hext d hvd
    rw [matEntries, matEntries] at this
    exact this
  · intro hD
    simp only [add_global_metadata, mergeLocked, hreg2, Bool.not_false,
      Bool.true_and, hdup, hD, Bool.false_eq_true, if_false]
    refine ⟨trivial, ?_⟩
    intro p hp
    have hmat := deepcopyEntries_mat es m hves
    have hmem : (p.1, matVal m p.2) ∈ matEntries m es := by
      rw [matEntries]
      exact List.mem_map_of_mem _ hp
    rw [← hmat, matEntries] at hmem
    obtain ⟨q, hq, hqeq⟩ := List.mem_map.mp hmem
    rw [Prod.mk.injEq] at hqeq
    obtain ⟨hq1, hq2⟩ := hqeq
    have hdict : dictAt (((deepcopyEntries m es).2).write reg
        (PyObj.pdict (dupdate d (deepcopyEntries m es).1))) reg =
        dupdate d (deepcopyEntries m es).1 := by
      simp only [dictAt, read_write_self _ _ _ _ hreg2]
    refine ⟨q.2, ?_, ?_⟩
    · rw [hdict]
      apply dlookup_dupdate_mem (deepcopyEntries m es).1 d p.1 q.2
        (hkeys ▸ hnd)
      rw [← hq1]
      exact hq
    · rw [matVal_write_dict _ _ _ _ hreg2]
      exact hq2

/-- C2 witness: adding `k: 1` twice in a row from an empty registry —
the first call succeeds and yields exactly the registry state used in
the instantiation, the second call fails with `KeyError` and `k: 1` is
still reported. -/
theorem c2_add_no_overwrite_atomic_witness :
    (add_global_metadata ⟨1, [(0, PyObj.pdict [])]⟩ 0
        (NameArg.ndict [(RKey.kstr "k", RVal.rint 1)]) false).1 =
      Except.ok () ∧
    (add_global_metadata ⟨1, [(0, PyObj.pdict [])]⟩ 0
        (NameArg.ndict [(RKey.kstr "k", RVal.rint 1)]) false).2 =
      ⟨1, [(0, PyObj.pdict [(RKey.kstr "k", RVal.rint 1)])]⟩ ∧
    (add_global_metadata ⟨1, [(0, PyObj.pdict [(RKey.kstr "k",
        RVal.rint 1)])]⟩ 0
        (NameArg.ndict [(RKey.kstr "k", RVal.rint 1)]) false).1 =
      Except.error PyError.keyError ∧
    matDictAt (add_global_metadata ⟨1, [(0, PyObj.pdict [(RKey.kstr "k",
        RVal.rint 1)])]⟩ 0
        (NameArg.ndict [(RKey.kstr "k", RVal.rint 1)]) false).2 0 =
      matDictAt ⟨1, [(0, PyObj.pdict [(RKey.kstr "k", RVal.rint 1)])]⟩ 0 ∧
    matDictAt ⟨1, [(0, PyObj.pdict [(RKey.kstr "k", RVal.rint 1)])]⟩ 0 =
      [(RKey.kstr "k", MatV.mint 1)] := by
  refine ⟨by decide, by decide, ?_, ?_, by decide⟩
  · exact ((c2_add_no_overwrite_atomic
      ⟨1, [(0, PyObj.pdict [(RKey.kstr "k", RVal.rint 1)])]⟩ 0
      [(RKey.kstr "k", RVal.rint 1)] [(RKey.kstr "k", RVal.rint 1)]
      (by decide) (by decide) (by decide) (by decide) (by decide)).1
      (by decide)).1
  · exact ((c2_add_no_overwrite_atomic
      ⟨1, [(0, PyObj.pdict [(RKey.kstr "k", RVal.rint 1)])]⟩ 0
      [(RKey.kstr "k", RVal.rint 1)] [(RKey.kstr "k", RVal.rint 1)]
      (by decide) (by decide) (by decide) (by decide) (by decide)).1
      (by decide)).2

/-! ## C10: non-string keys pass through add_global_metadata -/

/-- C10: for a dict argument containing a non-string key, the call never
raises `TypeError` — the `TypeError` expression of the source is built
but not raised — so, subject only to the duplicate-key check, the
entries are deep-copied and merged: with no duplicate key the call
succeeds and every entry key (including the non-string ones) is present
in the registry afterwards. -/
theorem c10_nonstr_keys_accepted (m : PyMem) (reg : Nat)
    (d es : List (RKey × RVal))
    (hwf : m.wfB = true) (hreg : m.read reg = some (PyObj.pdict d))
    (_hkey : es.any (fun p => !isStrKeyB p.1) = true)
    (hnd : (es.map Prod.fst).Nodup) :
    (add_global_metadata m reg (NameArg.ndict es) false).1 ≠
      Except.error PyError.typeError ∧
    (hasDupB d es = false →
      (add_global_metadata m reg (NameArg.ndict es) false).1 =
        Except.ok () ∧
      ∀ p ∈ es, (dlookup (dictAt (add_global_metadata m reg
        (NameArg.ndict es) false).2 reg) p.1).isSome = true) := by
  have hlt : reg < m.next := read_lt_next m hwf reg _ hreg
  have hext : extM m (deepcopyEntries m es).2 := deepcopyEntries_ext es m
  have hreg2 : ((deepcopyEntries m es).2).read reg =
      some (PyObj.pdict d) := by
    rw [hext.2 reg hlt]; exact hreg
  have hkeys := deepcopyEntries_keys es m
  constructor
  · simp only [add_global_metadata, mergeLocked, hreg2]
    cases hd2 : ((deepcopyEntries m es).1).any
        (fun p => (dlookup d p.1).isSome)
    · simp [hd2]
    · simp [hd2]
  · intro hD
    have hdup : ((deepcopyEntries m es).1).any
        (fun p => (dlookup d p.1).isSome) = false := by
      have e1 := any_over_fst (deepcopyEntries m es).1
        (fun k => (dlookup d k).isSome)
      have e2 := any_over_fst es (fun k => (dlookup d k).isSome)
      have hD2 : es.any (fun p => (dlookup d p.1).isSome) = false := hD
      exact e1.trans (((congrArg
        (fun t => t.any (fun k => (dlookup d k).isSome)) hkeys)).trans
        (e2.symm.trans hD2))
    simp only [add_global_metadata, mergeLocked, hreg2, Bool.not_false,
      Bool.true_and, hdup, Bool.false_eq_true, if_false]
    refine ⟨trivial, ?_⟩
    intro p hp
    have hdict : dictAt (((deepcopyEntries m es).2).write reg
        (PyObj.pdict (dupdate d (deepcopyEntries m es).1))) reg =
        dupdate d (deepcopyEntries m es).1 := by
      simp only [dictAt, read_write_self _ _ _ _ hreg2]
    rw [hdict]
    have hk : p.1 ∈ ((deepcopyEntries m es).1).map Prod.fst := by
      rw [hkeys]
      exact List.mem_map_of_mem _ hp
    obtain ⟨q, hq, hq1⟩ := List.mem_map.mp hk
    have hmem : (p.1, q.2) ∈ (deepcopyEntries m es).1 := by
      rw [← hq1]
      exact hq
    rw [dlookup_dupdate_mem (deepcopyEntries m es).1 d p.1 q.2
      (hkeys ▸ hnd) hmem]
    rfl

/-- C10 witness: an integer-keyed entry is merged without any error. -/
theorem c10_nonstr_keys_accepted_witness :
    (add_global_metadata ⟨1, [(0, PyObj.pdict [])]⟩ 0
        (NameArg.ndict [(RKey.kint 5, RVal.rint 7)]) false).1 ≠
      Except.error PyError.typeError ∧
    (add_global_metadata ⟨1, [(0, PyObj.pdict [])]⟩ 0
        (NameArg.ndict [(RKey.kint 5, RVal.rint 7)]) false).1 =
      Except.ok () ∧
    (dlookup (dictAt (add_global_metadata ⟨1, [(0, PyObj.pdict [])]⟩ 0
        (NameArg.ndict [(RKey.kint 5, RVal.rint 7)]) false).2 0)
      (RKey.kint 5)).isSome = true :=
  ⟨(c10_nonstr_keys_accepted ⟨1, [(0, PyObj.pdict [])]⟩ 0 []
      [(RKey.kint 5, RVal.rint 7)] (by decide) (by decide) (by decide)
      (by decide)).1,
   ((c10_nonstr_keys_accepted ⟨1, [(0, PyObj.pdict [])]⟩ 0 []
      [(RKey.kint 5, RVal.rint 7)] (by decide) (by decide) (by decide)
      (by decide)).2 (by decide)).1,
   ((c10_nonstr_keys_accepted ⟨1, [(0, PyObj.pdict [])]⟩ 0 []
      [(RKey.kint 5, RVal.rint 7)] (by decide) (by decide) (by decide)
      (by decide)).2 (by decide)).2 (RKey.kint 5, RVal.rint 7) (by decide)⟩
